import Mathlib

/-!
# Changelog server: shallow embedding of `src/index.js`

The program keeps four module-level registries (`modIds`, `gameVersions`,
`changelogs`, `setupEndpoints`) and the route table of the Express `app`.
They are threaded here as one explicit `State`.  The file system, `__dirname`,
the `semver` package and Express's route matching are external collaborators
and enter as parameters (`Host`, `Semver`, `routeMatches`).  A thrown JavaScript exception is an `Except.error`.
-/

namespace Changelogs

/-! ## External collaborators -/

/-- What `fs` can find at a path: a regular file with its UTF-8 text, a
directory with the names `readdirSync` lists, or something else (a symbolic
link, a socket, ...). -/
inductive Node where
  | file (content : String)
  | dir (entries : List String)
  | other
  deriving DecidableEq, Repr

/-- Exceptions the modelled calls can throw. -/
inductive Err where
  | enoent (path : String)
  | enotdir (path : String)
  | eisdir (path : String)
  | invalidArg
  deriving DecidableEq, Repr

/-- The host the process runs on: the value of `__dirname` and the file system
as a lookup from path to node (`none`: nothing exists at that path). -/
structure Host where
  dirname : String
  node : String → Option Node

/-- The two functions of the `semver` package the program calls.
`parse v` is `null` (`none`) or a SemVer object, represented by its normalised
`version` text; `compare a b` is negative, zero or positive. -/
structure Semver where
  parse : String → Option String
  compare : String → String → Int

/-- Result of `fs.lstatSync(p).isFile()`. -/
def Node.isFile : Node → Bool
  | .file _ => true
  | _ => false

/-- Result of `fs.lstatSync(p).isDirectory()`. -/
def Node.isDirectory : Node → Bool
  | .dir _ => true
  | _ => false

/-- Embedding of `fs.existsSync`. -/
def existsSync (h : Host) (p : String) : Bool :=
  (h.node p).isSome

/-- Embedding of `fs.lstatSync`: throws `ENOENT` when nothing is at the path. -/
def lstatSync (h : Host) (p : String) : Except Err Node :=
  match h.node p with
  | some n => .ok n
  | none => .error (.enoent p)

/-- Embedding of `fs.readFileSync(p).toString('utf8')`. -/
def readFileSync (h : Host) (p : String) : Except Err String :=
  match h.node p with
  | some (.file c) => .ok c
  | some (.dir _) => .error (.eisdir p)
  | some .other => .error (.enoent p)
  | none => .error (.enoent p)

/-- Embedding of `fs.readdirSync`. -/
def readdirSync (h : Host) (p : String) : Except Err (List String) :=
  match h.node p with
  | some (.dir es) => .ok es
  | some _ => .error (.enotdir p)
  | none => .error (.enoent p)

/-! ## The `path` module, on the paths this program builds

Every path the program builds is `__dirname` followed by segments that are
either the constant `changelogs`, a name returned by `readdirSync`, or such a
name with `.txt` appended.  On those `path.join` is concatenation with `/`. -/

/-- Embedding of `path.join(a, b)`. -/
def pathJoin (a b : String) : String :=
  a ++ "/" ++ b

/-- Characters after the last `/` of a list of characters. -/
def lastSegment : List Char → List Char
  | [] => []
  | c :: cs => if '/' ∈ cs then lastSegment cs else if c = '/' then cs else c :: cs

/-- Embedding of `path.basename(p)`. -/
def basename (p : String) : String :=
  String.mk (lastSegment p.data)

/-- Embedding of `path.basename(file, '.txt')` for a directory entry `file`:
the name without a trailing `.txt`. -/
def basenameTxt (file : String) : String :=
  if ".txt".data <:+ file.data then String.mk (file.data.take (file.data.length - 4)) else file

/-- Characters from the last `.` on, or `none` when there is no `.`; the second
component is the part before that `.`. -/
def splitLastDot : List Char → Option (List Char × List Char)
  | [] => none
  | c :: cs =>
    match splitLastDot cs with
    | some (pre, ext) => some (c :: pre, ext)
    | none => if c = '.' then some ([], c :: cs) else none

/-- Embedding of `path.extname(p)`: the text from the last `.` of the last
segment on; empty when there is no `.`, when the `.` is the segment's first
character, or when the segment is `..`. -/
def extname (p : String) : String :=
  let seg := lastSegment p.data
  match splitLastDot seg with
  | none => ""
  | some (pre, ext) =>
    if pre = [] then "" else if seg = ['.', '.'] then "" else String.mk ext

/-! ## Strings -/

/-- Embedding of `String.prototype.split` with a one-character separator. -/
def split (sep : Char) : List Char → List (List Char)
  | [] => [[]]
  | c :: cs =>
    if c = sep then [] :: split sep cs
    else
      match split sep cs with
      | [] => [[c]]
      | l :: ls => (c :: l) :: ls

/-- Embedding of `Array.prototype.join` with a one-character separator. -/
def join (sep : Char) : List (List Char) → List Char
  | [] => []
  | [l] => l
  | l :: l2 :: ls => l ++ sep :: join sep (l2 :: ls)

/-- Embedding of `Array.prototype.shift`, as the array that remains. -/
def shift {α : Type} : List α → List α
  | [] => []
  | _ :: xs => xs

/-- What a template literal prints for a value that may be `undefined`. -/
def jsToString : Option String → String
  | some v => v
  | none => "undefined"

/-- Truthiness of a value that is a string or `undefined`: only a non-empty
string is truthy. -/
def truthy : Option String → Bool
  | some v => v != ""
  | none => false

/-! ## Program state -/

/-- The module-level registries of `index.js` and the GET routes bound on `app`
(in registration order, each with the body its handler sends). -/
structure State where
  modIds : List String
  gameVersions : List String
  changelogs : List (String × String)
  setupEndpoints : List String
  routes : List (String × String)
  deriving DecidableEq, Repr

/-- State at module load: every registry is empty. -/
def State.initial : State :=
  { modIds := [], gameVersions := [], changelogs := [], setupEndpoints := [], routes := [] }

/-- Directory name changelogs are stored in. -/
def changelogsDir : String := "changelogs"

/-- The path `buildChangelogPath` joins for a version that is a string. -/
def changelogPath (h : Host) (modId version : String) : String :=
  pathJoin (pathJoin (pathJoin h.dirname changelogsDir) version) (modId ++ ".txt")

/-- Embedding of `buildChangelogPath`; `path.join` throws a `TypeError` on an
`undefined` argument. -/
def buildChangelogPath (h : Host) (modId : String) (version : Option String) :
    Except Err String :=
  match version with
  | some v => .ok (changelogPath h modId v)
  | none => .error .invalidArg

/-- Embedding of `buildEndPoint`. -/
def buildEndPoint (modId : String) (version : Option String) : String :=
  if truthy version && version != some "latest" then "/" ++ modId ++ "/" ++ jsToString version
  else "/" ++ modId

/-- The cache key built on line 41. -/
def changelogKey (modId : String) (version : Option String) : String :=
  modId ++ "-" ++ jsToString version

/-- Text cached for a file: split on newlines, first line dropped, rejoined. -/
def stripFirstLine (data : String) : String :=
  String.mk (join '\n' (shift (split '\n' data.data)))

/-- The condition of line 46, `fs.existsSync(p) && fs.lstatSync(p).isFile()`;
`lstatSync` runs only when `existsSync` answered true. -/
def existsAndIsFile (h : Host) (p : String) : Except Err Bool :=
  if existsSync h p then
    match lstatSync h p with
    | .ok st => .ok st.isFile
    | .error e => .error e
  else .ok false

/-- Embedding of `getOrLoadChangelog`: the returned text and the state after. -/
def getOrLoadChangelog (h : Host) (s : State) (modId : String) (version : Option String)
    (latest : Bool) : Except Err (String × State) :=
  let changelogKey := changelogKey modId version
  if truthy (s.changelogs.lookup changelogKey) then
    .ok (jsToString (s.changelogs.lookup changelogKey), s)
  else do
    let filePath ← buildChangelogPath h modId version
    if ← existsAndIsFile h filePath then
      let data ← readFileSync h filePath
      let changelog := stripFirstLine data
      .ok (changelog, { s with changelogs := (changelogKey, changelog) :: s.changelogs })
    else if latest then
      .ok ("Missing changelog file for mod/version: " ++ modId ++ "-latest", s)
    else
      .ok ("Missing changelog file for mod/version: " ++ changelogKey, s)

/-- Embedding of `setupChangelogEndpoint`. -/
def setupChangelogEndpoint (s : State) (changelog endpoint : String) : State :=
  if endpoint ∈ s.setupEndpoints then s
  else
    { s with
      setupEndpoints := s.setupEndpoints ++ [endpoint]
      routes := s.routes ++ [(endpoint, changelog)] }

/-- Embedding of `Array.prototype.forEach` with a callback that may throw. -/
def forEach {α : Type} (f : State → α → Except Err State) : List α → State → Except Err State
  | [], s => .ok s
  | x :: xs, s =>
    match f s x with
    | .ok s1 => forEach f xs s1
    | .error e => .error e

/-- Embedding of `setupModChangelog`. -/
def setupModChangelog (h : Host) (s : State) (modId version : String) : Except Err State := do
  let filePath ← buildChangelogPath h modId (some version)
  if extname filePath != ".txt" then return s
  let st ← lstatSync h filePath
  if !st.isFile then return s
  let s1 := if modId ∈ s.modIds then s else { s with modIds := s.modIds ++ [modId] }
  let (changelog, s2) ← getOrLoadChangelog h s1 modId (some version) false
  return setupChangelogEndpoint s2 changelog (buildEndPoint modId (some version))

/-- Embedding of `setupModChangelogs`. -/
def setupModChangelogs (sv : Semver) (h : Host) (s : State) (dirPath file : String) :
    Except Err State := do
  let fullPath := pathJoin dirPath file
  let st ← lstatSync h fullPath
  if st.isDirectory then
    let version := basename fullPath
    if !(version ∈ s.gameVersions) && (sv.parse version).isSome then
      let s1 := { s with gameVersions := s.gameVersions ++ [version] }
      let files ← readdirSync h fullPath
      forEach (fun s file => setupModChangelog h s (basenameTxt file) version) files s1
    else return s
  else return s

/-- The callback of the `forEach` in `findLatestVersion`. -/
def latestStep (sv : Semver) (latestVersion : Option String) (version : String) :
    Option String :=
  if truthy latestVersion then
    if sv.compare version (jsToString latestVersion) > 0 then some version else latestVersion
  else some version

/-- Embedding of `findLatestVersion`; `none` is `undefined`. -/
def findLatestVersion (sv : Semver) (gameVersions : List String) : Option String :=
  gameVersions.foldl (latestStep sv) none

/-- Embedding of `setupLatestChangelogs`. -/
def setupLatestChangelogs (sv : Semver) (h : Host) (s : State) : Except Err State :=
  let latestVersion := findLatestVersion sv s.gameVersions
  forEach
    (fun s modId => do
      let (changelog, s1) ← getOrLoadChangelog h s modId latestVersion true
      return setupChangelogEndpoint s1 changelog (buildEndPoint modId (some "latest")))
    s.modIds s

/-- Embedding of `setupChangelogs`, the main entry point. -/
def setupChangelogs (sv : Semver) (h : Host) (s : State) (changelogDir : String) :
    Except Err State := do
  let fullPath := pathJoin h.dirname changelogDir
  let files ← readdirSync h fullPath
  let s1 ← forEach (fun s file => setupModChangelogs sv h s fullPath file) files s
  setupLatestChangelogs sv h s1

/-- The program up to `app.listen`: line 134. -/
def bootstrap (sv : Semver) (h : Host) : Except Err State :=
  setupChangelogs sv h State.initial "changelogs"

/-- An HTTP response: status code and body. -/
structure Response where
  status : Nat
  body : String
  deriving DecidableEq, Repr

/-- Body bound to a route: the handler registered first for that exact path. -/
def boundBody (s : State) (path : String) : Option String :=
  s.routes.lookup path

/-- Answer to `GET path` once the server listens.  Express tries the routes
in registration order and the first whose name matches the request path sends
its body; when none matches the fallback of line 137 answers.  How a route
name matches a path is Express's business and enters as `routeMatches`
(route name first, request path second). -/
def handleGet (routeMatches : String → String → Bool) (s : State) (path : String) :
    Response :=
  match s.routes.find? (fun r => routeMatches r.1 path) with
  | some r => { status := 200, body := r.2 }
  | none => { status := 404, body := "Unknown endpoint! (404)" }

/-- Express's default matching for a route name made of letters, digits, `.`,
`-`, `_` and `/` (no pattern character) that does not end in `/`: letter case
is ignored and the request path may carry one trailing `/`. -/
def expressMatch (route path : String) : Bool :=
  path.data.map Char.toLower == route.data.map Char.toLower ||
    path.data.map Char.toLower == route.data.map Char.toLower ++ ['/']

/-- The text returned by the last of `n + 1` successive calls of
`getOrLoadChangelog` for the same pair, each starting from the state the
previous one left. -/
def repeatLoad (h : Host) (modId : String) (version : Option String) (latest : Bool) :
    Nat → State → Except Err (String × State)
  | 0, s => getOrLoadChangelog h s modId version latest
  | n + 1, s =>
    match getOrLoadChangelog h s modId version latest with
    | .ok (_, s1) => repeatLoad h modId version latest n s1
    | .error e => .error e

/-- The state after a sequence of `setupChangelogEndpoint(changelog, endpoint)`
calls, given as (changelog, endpoint) pairs. -/
def registerAll (calls : List (String × String)) (s : State) : State :=
  calls.foldl (fun s c => setupChangelogEndpoint s c.1 c.2) s

/-! ## Assumptions on the collaborators -/

/-- What the program relies on from `semver`: the empty string is not a
version, and on valid versions `compare` is a total preorder. -/
structure Semver.Lawful (sv : Semver) : Prop where
  parse_empty : sv.parse "" = none
  total : ∀ a b, (sv.parse a).isSome → (sv.parse b).isSome →
    sv.compare a b ≤ 0 ∨ sv.compare b a ≤ 0
  trans : ∀ a b c, (sv.parse a).isSome → (sv.parse b).isSome → (sv.parse c).isSome →
    sv.compare a b ≤ 0 → sv.compare b c ≤ 0 → sv.compare a c ≤ 0

/-- A name without a path separator. -/
def SlashFree (name : String) : Prop :=
  '/' ∉ name.data

instance (name : String) : Decidable (SlashFree name) :=
  inferInstanceAs (Decidable ('/' ∉ name.data))

/-- A file system whose directory listings are consistent with its lookups:
listed names contain no `/`, and a name exists under a directory exactly when
the directory lists it. -/
structure Host.WellFormed (h : Host) : Prop where
  slashFree : ∀ p es, h.node p = some (.dir es) → ∀ n ∈ es, SlashFree n
  listed : ∀ p es n, h.node p = some (.dir es) → SlashFree n →
    (h.node (pathJoin p n)).isSome → n ∈ es

/-! ## A concrete `semver` for the examples

The fragment `v?X.Y.Z` and `v?X.Y.Z-P1.P2...` of the semantic-version grammar
with numeric identifiers, compared as the `semver` package compares them. -/

/-- Value of a numeric identifier `0|[1-9]\d*`, `none` for any other text. -/
def parseNumeric (cs : List Char) : Option Nat :=
  if cs = [] then none
  else if cs.all Char.isDigit && (cs.head? != some '0' || cs.length = 1) then
    some (cs.foldl (fun acc c => 10 * acc + (c.toNat - 48)) 0)
  else none

/-- All identifiers of a dot-separated list, when each is numeric. -/
def parseNumerics : List (List Char) → Option (List Nat)
  | [] => some []
  | x :: xs =>
    match parseNumeric x, parseNumerics xs with
    | some n, some ns => some (n :: ns)
    | _, _ => none

/-- A version text without its optional leading `v`. -/
def dropV : List Char → List Char
  | 'v' :: rest => rest
  | other => other

/-- Main version and prerelease identifiers of a version text. -/
def parseVersion (v : String) : Option (List Nat × List Nat) :=
  match split '-' (dropV v.data) with
  | [main] =>
    match parseNumerics (split '.' main) with
    | some [x, y, z] => some ([x, y, z], [])
    | _ => none
  | [main, pre] =>
    match parseNumerics (split '.' main), parseNumerics (split '.' pre) with
    | some [x, y, z], some (p :: ps) => some ([x, y, z], p :: ps)
    | _, _ => none
  | _ => none

/-- Lexicographic comparison of identifier lists; a proper prefix is smaller. -/
def compareIdentifiers : List Nat → List Nat → Int
  | [], [] => 0
  | [], _ :: _ => -1
  | _ :: _, [] => 1
  | a :: as, b :: bs => if a < b then -1 else if b < a then 1 else compareIdentifiers as bs

/-- Prerelease comparison: a version without prerelease is the greater. -/
def comparePre : List Nat → List Nat → Int
  | [], [] => 0
  | [], _ :: _ => 1
  | _ :: _, [] => -1
  | a :: as, b :: bs => compareIdentifiers (a :: as) (b :: bs)

/-- Comparison of parsed versions: main version first, then prerelease. -/
def compareParsed (a b : List Nat × List Nat) : Int :=
  if compareIdentifiers a.1 b.1 ≠ 0 then compareIdentifiers a.1 b.1 else comparePre a.2 b.2

/-- The `semver` functions on the numeric fragment. -/
def plainSemver : Semver where
  parse v :=
    match parseVersion v with
    | some _ => some (String.mk (dropV v.data))
    | none => none
  compare a b :=
    match parseVersion a, parseVersion b with
    | some x, some y => compareParsed x y
    | _, _ => 0

/-! ## Concrete file systems -/

/-- A file system given by the list of its paths. -/
def hostOf (dirname : String) (nodes : List (String × Node)) : Host where
  dirname := dirname
  node p := nodes.lookup p

/-- The scenario of the specification: `modA` at 1.2.3 and at 1.3.0. -/
def scenarioHost : Host :=
  hostOf "/srv"
    [("/srv", .dir ["changelogs"]),
     ("/srv/changelogs", .dir ["1.2.3", "1.3.0"]),
     ("/srv/changelogs/1.2.3", .dir ["modA.txt"]),
     ("/srv/changelogs/1.3.0", .dir ["modA.txt"]),
     ("/srv/changelogs/1.2.3/modA.txt", .file "sha123\nFixed bug X\nAdded feature Y"),
     ("/srv/changelogs/1.3.0/modA.txt", .file "sha456\nImproved Z")]

/-- A tree in which `modA` has a changelog at 1.2.3 only and the latest
version 1.3.0 holds `modB` alone. -/
def staleHost : Host :=
  hostOf "/srv"
    [("/srv", .dir ["changelogs"]),
     ("/srv/changelogs", .dir ["1.2.3", "1.3.0"]),
     ("/srv/changelogs/1.2.3", .dir ["modA.txt"]),
     ("/srv/changelogs/1.3.0", .dir ["modB.txt"]),
     ("/srv/changelogs/1.2.3/modA.txt", .file "sha123\nFixed bug X"),
     ("/srv/changelogs/1.3.0/modB.txt", .file "sha456\nImproved Z")]

/-- A version directory that also holds a `readme.md`. -/
def readmeHost : Host :=
  hostOf "/srv"
    [("/srv", .dir ["changelogs"]),
     ("/srv/changelogs", .dir ["1.2.3"]),
     ("/srv/changelogs/1.2.3", .dir ["modA.txt", "readme.md"]),
     ("/srv/changelogs/1.2.3/modA.txt", .file "sha123\nFixed bug X"),
     ("/srv/changelogs/1.2.3/readme.md", .file "notes")]

/-- A version directory that also holds a sub-directory. -/
def subdirHost : Host :=
  hostOf "/srv"
    [("/srv", .dir ["changelogs"]),
     ("/srv/changelogs", .dir ["1.2.3"]),
     ("/srv/changelogs/1.2.3", .dir ["modA.txt", "old"]),
     ("/srv/changelogs/1.2.3/modA.txt", .file "sha123\nFixed bug X"),
     ("/srv/changelogs/1.2.3/old", .dir [])]

/-- Two directories whose names parse to the same version 1.2.3. -/
def aliasHost : Host :=
  hostOf "/srv"
    [("/srv", .dir ["changelogs"]),
     ("/srv/changelogs", .dir ["1.2.3", "v1.2.3"]),
     ("/srv/changelogs/1.2.3", .dir ["modA.txt"]),
     ("/srv/changelogs/v1.2.3", .dir ["modA.txt"]),
     ("/srv/changelogs/1.2.3/modA.txt", .file "sha123\nFirst"),
     ("/srv/changelogs/v1.2.3/modA.txt", .file "sha456\nSecond")]

/-- A changelog of one line, so that the text after stripping is empty. -/
def oneLineHost : Host :=
  hostOf "/srv"
    [("/srv/changelogs/1.2.3/modA.txt", .file "sha123")]

/-- The same path after the file was rewritten with a second line. -/
def rewrittenHost : Host :=
  hostOf "/srv"
    [("/srv/changelogs/1.2.3/modA.txt", .file "sha456\nNew text")]

/-- Mod `a` at version `1.0.0-2.0.0` and mod `a-1.0.0` at version `2.0.0`. -/
def clashHost : Host :=
  hostOf "/srv"
    [("/srv", .dir ["changelogs"]),
     ("/srv/changelogs", .dir ["1.0.0-2.0.0", "2.0.0"]),
     ("/srv/changelogs/1.0.0-2.0.0", .dir ["a.txt"]),
     ("/srv/changelogs/2.0.0", .dir ["a-1.0.0.txt"]),
     ("/srv/changelogs/1.0.0-2.0.0/a.txt", .file "sha1\nChanges of a"),
     ("/srv/changelogs/2.0.0/a-1.0.0.txt", .file "sha2\nChanges of a-1.0.0")]

/-- States the program can be in: the state at module load and every state a
call of one of its functions leaves, on any file system. -/
inductive Reachable : State → Prop where
  | initial : Reachable State.initial
  | endpoint (s : State) (changelog endpoint : String) :
    Reachable s → Reachable (setupChangelogEndpoint s changelog endpoint)
  | load (h : Host) (s : State) (modId : String) (version : Option String) (latest : Bool)
    (text : String) (s1 : State) :
    Reachable s → getOrLoadChangelog h s modId version latest = .ok (text, s1) → Reachable s1
  | modChangelog (h : Host) (s : State) (modId version : String) (s1 : State) :
    Reachable s → setupModChangelog h s modId version = .ok s1 → Reachable s1
  | modChangelogs (sv : Semver) (h : Host) (s : State) (dirPath file : String) (s1 : State) :
    Reachable s → setupModChangelogs sv h s dirPath file = .ok s1 → Reachable s1
  | latestChangelogs (sv : Semver) (h : Host) (s s1 : State) :
    Reachable s → setupLatestChangelogs sv h s = .ok s1 → Reachable s1
  | changelogs (sv : Semver) (h : Host) (s : State) (changelogDir : String) (s1 : State) :
    Reachable s → setupChangelogs sv h s changelogDir = .ok s1 → Reachable s1

/-- The route table lists the registered endpoints, each once. -/
def RegistrarInv (s : State) : Prop :=
  s.setupEndpoints.Nodup ∧ s.routes.map Prod.fst = s.setupEndpoints

/-- A text that is the stripped content of the changelog file of some
discovered mod and version whose cache key is `k`. -/
def Loaded (h : Host) (s : State) (k t : String) : Prop :=
  ∃ m ∈ s.modIds, ∃ v ∈ s.gameVersions, ∃ c,
    changelogKey m (some v) = k ∧ h.node (changelogPath h m v) = some (.file c) ∧
      t = stripFirstLine c

/-- A route registered by `setupModChangelog` for a discovered file. -/
def VersionedRoute (h : Host) (s : State) (e b : String) : Prop :=
  ∃ m ∈ s.modIds, ∃ v ∈ s.gameVersions, ∃ c,
    h.node (changelogPath h m v) = some (.file c) ∧ e = buildEndPoint m (some v) ∧
      Loaded h s (changelogKey m (some v)) b

/-- A route registered by `setupLatestChangelogs` when the latest version is
`latest`. -/
def LatestRoute (h : Host) (s : State) (latest : Option String) (e b : String) : Prop :=
  ∃ m ∈ s.modIds, e = "/" ++ m ∧
    ∀ v c, latest = some v → h.node (changelogPath h m v) = some (.file c) →
      Loaded h s (changelogKey m (some v)) b

/-- What holds of the registries throughout bootstrap. -/
structure Inv (sv : Semver) (h : Host) (latest : Option String) (s : State) : Prop where
  registrar : RegistrarInv s
  mods : ∀ m ∈ s.modIds, SlashFree m ∧ extname (m ++ ".txt") = ".txt"
  versions : ∀ v ∈ s.gameVersions, (sv.parse v).isSome = true
  cache : ∀ k t, (k, t) ∈ s.changelogs → Loaded h s k t
  routes : ∀ e b, (e, b) ∈ s.routes → VersionedRoute h s e b ∨ LatestRoute h s latest e b

/-- Every changelog file of a known version has its route. -/
def Scanned (h : Host) (s : State) : Prop :=
  ∀ v ∈ s.gameVersions, ∀ m c, SlashFree m → extname (m ++ ".txt") = ".txt" →
    h.node (changelogPath h m v) = some (.file c) → buildEndPoint m (some v) ∈ s.setupEndpoints

/-- No two discovered (mod, version) pairs share a cache key. -/
def KeysDistinct (s : State) : Prop :=
  ∀ m1 ∈ s.modIds, ∀ v1 ∈ s.gameVersions, ∀ m2 ∈ s.modIds, ∀ v2 ∈ s.gameVersions,
    changelogKey m1 (some v1) = changelogKey m2 (some v2) → m1 = m2 ∧ v1 = v2

/-- The rest of a list after a given prefix, `none` when it does not start
with it. -/
def dropPrefix : List Char → List Char → Option (List Char)
  | [], ys => some ys
  | _ :: _, [] => none
  | x :: xs, y :: ys => if x = y then dropPrefix xs ys else none

/-- Decidable form of `Host.WellFormed` for a file system given as a list:
listed names have no `/`, and every path that is a directory's path followed by
`/` and a name without `/` has that name in the directory's listing. -/
def listingsConsistent (nodes : List (String × Node)) : Bool :=
  nodes.all fun pn =>
    match pn.2 with
    | .dir es =>
      es.all (fun n => decide (SlashFree n)) &&
        nodes.all fun kn =>
          match dropPrefix (pn.1.data ++ ['/']) kn.1.data with
          | some rest => decide ('/' ∈ rest) || decide (String.mk rest ∈ es)
          | none => true
    | _ => true

/-! ## Strings: split and join -/

theorem split_ne_nil (sep : Char) (cs : List Char) : split sep cs ≠ [] := by
  cases cs with
  | nil => simp [split]
  | cons c cs =>
    unfold split
    split_ifs
    · simp
    · split <;> simp

theorem split_of_not_mem (sep : Char) (cs : List Char) (h : sep ∉ cs) : split sep cs = [cs] := by
  induction cs with
  | nil => rfl
  | cons c cs ih =>
    have hc : c ≠ sep := fun e => h (by simp [e])
    have hcs : sep ∉ cs := fun e => h (by simp [e])
    simp [split, hc, ih hcs]

theorem split_append_sep (sep : Char) (first rest : List Char) (h : sep ∉ first) :
    split sep (first ++ sep :: rest) = first :: split sep rest := by
  induction first with
  | nil => simp [split]
  | cons c cs ih =>
    have hc : c ≠ sep := fun e => h (by simp [e])
    have hcs : sep ∉ cs := fun e => h (by simp [e])
    simp [split, hc, ih hcs]

theorem join_split (sep : Char) (cs : List Char) : join sep (split sep cs) = cs := by
  induction cs with
  | nil => rfl
  | cons c cs ih =>
    unfold split
    split_ifs with hc
    · cases hs : split sep cs with
      | nil => exact absurd hs (split_ne_nil sep cs)
      | cons l ls => rw [hs] at ih; simp [join, ih, hc]
    · cases hs : split sep cs with
      | nil => exact absurd hs (split_ne_nil sep cs)
      | cons l ls =>
        rw [hs] at ih
        cases ls with
        | nil => simp [join] at ih ⊢; exact ih
        | cons l2 ls => simp [join] at ih ⊢; exact ih

theorem stripFirstLine_single (data : String) (h : '\n' ∉ data.data) :
    stripFirstLine data = "" := by
  simp [stripFirstLine, split_of_not_mem _ _ h, shift, join]

theorem stripFirstLine_lines (data : String) (first rest : List Char) (h : '\n' ∉ first)
    (hd : data.data = first ++ '\n' :: rest) : (stripFirstLine data).data = rest := by
  simp [stripFirstLine, hd, split_append_sep _ _ _ h, shift, join_split]

theorem getOrLoad_file (h : Host) (s : State) (modId version : String) (latest : Bool)
    (p data : String) (hp : buildChangelogPath h modId (some version) = .ok p)
    (hf : h.node p = some (.file data))
    (hc : s.changelogs.lookup (changelogKey modId (some version)) = none ∨
      s.changelogs.lookup (changelogKey modId (some version)) = some (stripFirstLine data)) :
    ∃ s1, getOrLoadChangelog h s modId (some version) latest = .ok (stripFirstLine data, s1) ∧
      s1.changelogs.lookup (changelogKey modId (some version)) = some (stripFirstLine data) := by
  unfold getOrLoadChangelog
  rcases hc with hc | hc
  · simp [hc, truthy, hp, existsAndIsFile, existsSync, lstatSync, hf, Node.isFile, readFileSync, bind, Except.bind, List.lookup]
  · by_cases ht : truthy (some (stripFirstLine data)) = true
    · simp [hc, ht, jsToString]
    · simp [hc, ht, hp, existsAndIsFile, existsSync, lstatSync, hf, Node.isFile, readFileSync, bind, Except.bind, List.lookup]


theorem repeatLoad_file (h : Host) (modId version : String) (latest : Bool)
    (p data : String) (hp : buildChangelogPath h modId (some version) = .ok p)
    (hf : h.node p = some (.file data)) (n : Nat) :
    ∀ s : State,
      (s.changelogs.lookup (changelogKey modId (some version)) = none ∨
        s.changelogs.lookup (changelogKey modId (some version)) = some (stripFirstLine data)) →
      ∃ s1, repeatLoad h modId (some version) latest n s = .ok (stripFirstLine data, s1) := by
  induction n with
  | zero =>
    intro s hc
    obtain ⟨s1, h1, _⟩ := getOrLoad_file h s modId version latest p data hp hf hc
    exact ⟨s1, h1⟩
  | succ n ih =>
    intro s hc
    obtain ⟨s1, h1, h2⟩ := getOrLoad_file h s modId version latest p data hp hf hc
    obtain ⟨s2, h3⟩ := ih s1 (Or.inr h2)
    exact ⟨s2, by simp [repeatLoad, h1, h3]⟩

/-- C1: when the changelog path of (modId, version) is a regular file and the
cache has no entry for the pair, every one of any number of successive calls of
`getOrLoadChangelog(modId, version, false)` returns the file's text split on
newlines, first element dropped, rejoined; that text is empty for a file
without a newline and is everything after the first newline otherwise. -/
theorem getOrLoadChangelog_returns_stripped_text (h : Host) (s : State)
    (modId version p data : String) (n : Nat)
    (hp : buildChangelogPath h modId (some version) = .ok p)
    (hf : h.node p = some (.file data))
    (hc : s.changelogs.lookup (changelogKey modId (some version)) = none) :
    (∃ s1, repeatLoad h modId (some version) false n s =
        .ok (String.mk (join '\n' ((split '\n' data.data).drop 1)), s1)) ∧
      ('\n' ∉ data.data → String.mk (join '\n' ((split '\n' data.data).drop 1)) = "") ∧
      (∀ first rest, '\n' ∉ first → data.data = first ++ '\n' :: rest →
        join '\n' ((split '\n' data.data).drop 1) = rest) := by
  have hs : ∀ l : List (List Char), l.drop 1 = shift l := by
    intro l; cases l <;> rfl
  refine ⟨?_, ?_, ?_⟩
  · rw [hs]
    exact repeatLoad_file h modId version false p data hp hf n s (Or.inl hc)
  · intro hn
    rw [hs]
    exact stripFirstLine_single data hn
  · intro first rest hn hd
    rw [hs]
    exact stripFirstLine_lines data first rest hn hd

theorem getOrLoadChangelog_returns_stripped_text_witness :
    ∃ s1, repeatLoad scenarioHost "modA" (some "1.2.3") false 2 State.initial =
      .ok ("Fixed bug X\nAdded feature Y", s1) :=
  (getOrLoadChangelog_returns_stripped_text scenarioHost State.initial "modA" "1.2.3"
    "/srv/changelogs/1.2.3/modA.txt" "sha123\nFixed bug X\nAdded feature Y" 2
    rfl rfl rfl).1

/-- C3: with no cached entry and nothing, or something other than a regular
file, at the changelog path, `getOrLoadChangelog` returns normally, leaves the
state as it was, and the returned text contains `modId-version` when the latest
flag is false and `modId-latest` when it is true. -/
theorem getOrLoadChangelog_missing_placeholder (h : Host) (s : State)
    (modId version p : String) (latest : Bool)
    (hp : buildChangelogPath h modId (some version) = .ok p)
    (hmissing : h.node p = none ∨ ∃ n, h.node p = some n ∧ n.isFile = false)
    (hc : s.changelogs.lookup (changelogKey modId (some version)) = none) :
    ∃ text, getOrLoadChangelog h s modId (some version) latest = .ok (text, s) ∧
      (latest = false → (modId ++ "-" ++ version).data <:+: text.data) ∧
      (latest = true → (modId ++ "-latest").data <:+: text.data) := by
  have hreg : existsAndIsFile h p = .ok false := by
    unfold existsAndIsFile existsSync lstatSync
    rcases hmissing with hn | ⟨n, hn, hfile⟩
    · simp [hn]
    · simp [hn, hfile]
  cases latest with
  | false =>
    refine ⟨"Missing changelog file for mod/version: " ++ changelogKey modId (some version),
      ?_, ?_, ?_⟩
    · unfold getOrLoadChangelog
      simp [hc, truthy, hp, hreg, bind, Except.bind]
    · intro _
      simp only [changelogKey, jsToString, String.data_append]
      exact (List.suffix_append _ _).isInfix
    · intro hl; cases hl
  | true =>
    refine ⟨"Missing changelog file for mod/version: " ++ modId ++ "-latest", ?_, ?_, ?_⟩
    · unfold getOrLoadChangelog
      simp [hc, truthy, hp, hreg, bind, Except.bind]
    · intro hl; cases hl
    · intro _
      simp only [String.data_append, List.append_assoc]
      exact (List.suffix_append _ _).isInfix

theorem getOrLoadChangelog_missing_placeholder_witness :
    ∃ text, getOrLoadChangelog scenarioHost State.initial "modA" (some "9.9.9") false =
        .ok (text, State.initial) ∧
      (false = false → ("modA" ++ "-" ++ "9.9.9").data <:+: text.data) ∧
      (false = true → ("modA" ++ "-latest").data <:+: text.data) :=
  getOrLoadChangelog_missing_placeholder scenarioHost State.initial "modA" "9.9.9"
    "/srv/changelogs/9.9.9/modA.txt" false rfl (Or.inl rfl) rfl

/-! ## Inversion of the program's functions -/

theorem existsAndIsFile_true (h : Host) (p : String) (hr : existsAndIsFile h p = .ok true) :
    ∃ c, h.node p = some (.file c) := by
  unfold existsAndIsFile existsSync lstatSync at hr
  cases hn : h.node p with
  | none => simp [hn] at hr
  | some nd =>
    cases nd with
    | file c => exact ⟨c, rfl⟩
    | dir es => simp [hn, Node.isFile] at hr
    | other => simp [hn, Node.isFile] at hr

theorem existsAndIsFile_false (h : Host) (p : String) (hr : existsAndIsFile h p = .ok false) :
    ∀ c, h.node p ≠ some (.file c) := by
  intro c hn
  simp [existsAndIsFile, existsSync, lstatSync, hn, Node.isFile] at hr

theorem existsAndIsFile_of_file (h : Host) (p c : String) (hn : h.node p = some (.file c)) :
    existsAndIsFile h p = .ok true := by
  simp [existsAndIsFile, existsSync, lstatSync, hn, Node.isFile]

/-- The three ways `getOrLoadChangelog` returns: a truthy cache entry, a load
from a regular file, or the placeholder. -/
theorem getOrLoad_cases (h : Host) (s : State) (modId : String) (version : Option String)
    (latest : Bool) (t : String) (s1 : State)
    (hr : getOrLoadChangelog h s modId version latest = .ok (t, s1)) :
    (s1 = s ∧ s.changelogs.lookup (changelogKey modId version) = some t ∧ t ≠ "") ∨
    (∃ p c, buildChangelogPath h modId version = .ok p ∧ h.node p = some (.file c) ∧
      t = stripFirstLine c ∧
      s1 = { s with changelogs := (changelogKey modId version, t) :: s.changelogs }) ∨
    (s1 = s ∧ ∃ p, buildChangelogPath h modId version = .ok p ∧
      (∀ c, h.node p ≠ some (.file c)) ∧
      t = if latest then "Missing changelog file for mod/version: " ++ modId ++ "-latest"
        else "Missing changelog file for mod/version: " ++ changelogKey modId version) := by
  unfold getOrLoadChangelog at hr
  by_cases ht : truthy (s.changelogs.lookup (changelogKey modId version)) = true
  · left
    simp only [ht, if_true] at hr
    cases hl : s.changelogs.lookup (changelogKey modId version) with
    | none => simp [hl, truthy] at ht
    | some c =>
      simp only [hl, jsToString, Except.ok.injEq, Prod.mk.injEq] at hr
      obtain ⟨h1, h2⟩ := hr
      subst h1 h2
      refine ⟨rfl, rfl, ?_⟩
      simpa [hl, truthy] using ht
  · right
    simp only [ht, Bool.false_eq_true, if_false, bind, Except.bind] at hr
    cases hp : buildChangelogPath h modId version with
    | error e => simp [hp] at hr
    | ok p =>
      simp only [hp] at hr
      cases he : existsAndIsFile h p with
      | error e => simp [he] at hr
      | ok b =>
        simp only [he] at hr
        cases b with
        | true =>
          left
          obtain ⟨c, hc⟩ := existsAndIsFile_true h p he
          simp only [if_true, readFileSync, hc, Except.ok.injEq, Prod.mk.injEq] at hr
          obtain ⟨h1, h2⟩ := hr
          exact ⟨p, c, rfl, hc, h1.symm, by rw [← h2, h1]⟩
        | false =>
          right
          have hm := existsAndIsFile_false h p he
          cases latest with
          | true =>
            simp only [Bool.false_eq_true, if_false, if_true, Except.ok.injEq,
              Prod.mk.injEq] at hr
            exact ⟨hr.2.symm, p, rfl, hm, by simp [hr.1]⟩
          | false =>
            simp only [Bool.false_eq_true, if_false, Except.ok.injEq, Prod.mk.injEq] at hr
            exact ⟨hr.2.symm, p, rfl, hm, by simp [hr.1]⟩

/-- The registries `getOrLoadChangelog` leaves untouched. -/
theorem getOrLoad_frame (h : Host) (s : State) (modId : String) (version : Option String)
    (latest : Bool) (t : String) (s1 : State)
    (hr : getOrLoadChangelog h s modId version latest = .ok (t, s1)) :
    s1.modIds = s.modIds ∧ s1.gameVersions = s.gameVersions ∧
      s1.setupEndpoints = s.setupEndpoints ∧ s1.routes = s.routes := by
  rcases getOrLoad_cases h s modId version latest t s1 hr with
    ⟨e, _⟩ | ⟨p, c, _, _, _, e⟩ | ⟨e, _⟩ <;> subst e <;> simp

/-- A property every callback step preserves holds after the whole `forEach`. -/
theorem forEach_preserves {α : Type} (P : State → Prop)
    (f : State → α → Except Err State) (xs : List α)
    (hf : ∀ s x s1, x ∈ xs → P s → f s x = .ok s1 → P s1) :
    ∀ s s1, P s → forEach f xs s = .ok s1 → P s1 := by
  induction xs with
  | nil =>
    intro s s1 hs hr
    simp only [forEach, Except.ok.injEq] at hr
    exact hr ▸ hs
  | cons x xs ih =>
    intro s s1 hs hr
    simp only [forEach] at hr
    cases hx : f s x with
    | error e => simp [hx] at hr
    | ok s2 =>
      simp only [hx] at hr
      exact ih (fun s x s1 hm => hf s x s1 (List.mem_cons_of_mem _ hm)) s2 s1
        (hf s x s2 (List.mem_cons_self _ _) hs hx) hr

/-- The ways `setupModChangelog` returns: one of the two early returns, or a
registration after a load. -/
theorem setupModChangelog_cases (h : Host) (s : State) (modId version : String) (s1 : State)
    (hr : setupModChangelog h s modId version = .ok s1) :
    s1 = s ∨
    ∃ p c t s2, buildChangelogPath h modId (some version) = .ok p ∧ extname p = ".txt" ∧
      h.node p = some (.file c) ∧
      getOrLoadChangelog h
        (if modId ∈ s.modIds then s else { s with modIds := s.modIds ++ [modId] })
        modId (some version) false = .ok (t, s2) ∧
      s1 = setupChangelogEndpoint s2 t (buildEndPoint modId (some version)) := by
  unfold setupModChangelog at hr
  simp only [buildChangelogPath, bind, Except.bind, pure, Except.pure] at hr
  by_cases he : extname (changelogPath h modId version) = ".txt"
  · simp only [he, bne_self_eq_false, Bool.false_eq_true, if_false] at hr
    cases hn : h.node (changelogPath h modId version) with
    | none => simp [lstatSync, hn] at hr
    | some nd =>
      cases nd with
      | file c =>
        simp only [lstatSync, hn, Node.isFile, Bool.not_true, Bool.false_eq_true,
          if_false] at hr
        right
        cases hg : getOrLoadChangelog h
            (if modId ∈ s.modIds then s else { s with modIds := s.modIds ++ [modId] })
            modId (some version) false with
        | error e => simp [hg] at hr
        | ok r =>
          obtain ⟨t, s2⟩ := r
          simp only [hg, Except.ok.injEq] at hr
          exact ⟨_, c, t, s2, rfl, he, hn, rfl, hr.symm⟩
      | dir es =>
        simp only [lstatSync, hn, Node.isFile, Bool.not_false, if_true, Except.ok.injEq] at hr
        exact Or.inl hr.symm
      | other =>
        simp only [lstatSync, hn, Node.isFile, Bool.not_false, if_true, Except.ok.injEq] at hr
        exact Or.inl hr.symm
  · have hb : (extname (changelogPath h modId version) != ".txt") = true := by simpa using he
    simp only [hb, if_true, Except.ok.injEq] at hr
    exact Or.inl hr.symm


/-- The ways `setupModChangelogs` returns: the entry is skipped, or it is a new
version directory whose files were all handed to `setupModChangelog`. -/
theorem setupModChangelogs_cases (sv : Semver) (h : Host) (s : State) (dirPath file : String)
    (s1 : State) (hr : setupModChangelogs sv h s dirPath file = .ok s1) :
    s1 = s ∨
    ∃ es, h.node (pathJoin dirPath file) = some (.dir es) ∧
      basename (pathJoin dirPath file) ∉ s.gameVersions ∧
      (sv.parse (basename (pathJoin dirPath file))).isSome = true ∧
      forEach (fun s f => setupModChangelog h s (basenameTxt f) (basename (pathJoin dirPath file)))
        es { s with gameVersions := s.gameVersions ++ [basename (pathJoin dirPath file)] } =
        .ok s1 := by
  unfold setupModChangelogs at hr
  simp only [bind, Except.bind, pure, Except.pure] at hr
  cases hn : h.node (pathJoin dirPath file) with
  | none => simp [lstatSync, hn] at hr
  | some nd =>
    cases nd with
    | file c =>
      simp only [lstatSync, hn, Node.isDirectory, Bool.false_eq_true, if_false,
        Except.ok.injEq] at hr
      exact Or.inl hr.symm
    | other =>
      simp only [lstatSync, hn, Node.isDirectory, Bool.false_eq_true, if_false,
        Except.ok.injEq] at hr
      exact Or.inl hr.symm
    | dir es =>
      simp only [lstatSync, hn, Node.isDirectory, if_true, readdirSync] at hr
      by_cases hc : (!decide (basename (pathJoin dirPath file) ∈ s.gameVersions) &&
          (sv.parse (basename (pathJoin dirPath file))).isSome) = true
      · simp only [hc, if_true] at hr
        simp only [Bool.and_eq_true, Bool.not_eq_true', decide_eq_false_iff_not] at hc
        exact Or.inr ⟨es, rfl, hc.1, hc.2, hr⟩
      · simp only [hc, Bool.false_eq_true, if_false, Except.ok.injEq] at hr
        exact Or.inl hr.symm

theorem setupChangelogEndpoint_of_mem (s : State) (c e : String) (he : e ∈ s.setupEndpoints) :
    setupChangelogEndpoint s c e = s := by
  unfold setupChangelogEndpoint
  rw [if_pos he]

theorem registrarInv_endpoint (s : State) (c e : String) (hs : RegistrarInv s) :
    RegistrarInv (setupChangelogEndpoint s c e) := by
  unfold setupChangelogEndpoint
  split_ifs with he
  · exact hs
  · refine ⟨?_, ?_⟩
    · simp only
      exact List.Nodup.append hs.1 (List.nodup_singleton e) (by simpa using he)
    · simp [hs.2]

theorem registrarInv_load (h : Host) (s : State) (modId : String) (version : Option String)
    (latest : Bool) (t : String) (s1 : State) (hs : RegistrarInv s)
    (hr : getOrLoadChangelog h s modId version latest = .ok (t, s1)) : RegistrarInv s1 := by
  obtain ⟨_, _, h3, h4⟩ := getOrLoad_frame h s modId version latest t s1 hr
  simpa [RegistrarInv, h3, h4] using hs

theorem registrarInv_modChangelog (h : Host) (s : State) (modId version : String) (s1 : State)
    (hs : RegistrarInv s) (hr : setupModChangelog h s modId version = .ok s1) :
    RegistrarInv s1 := by
  rcases setupModChangelog_cases h s modId version s1 hr with e | ⟨p, c, t, s2, _, _, _, hg, e⟩
  · exact e ▸ hs
  · subst e
    apply registrarInv_endpoint
    refine registrarInv_load h _ modId (some version) false t s2 ?_ hg
    split_ifs
    · exact hs
    · exact hs

theorem registrarInv_modChangelogs (sv : Semver) (h : Host) (s : State) (dirPath file : String)
    (s1 : State) (hs : RegistrarInv s)
    (hr : setupModChangelogs sv h s dirPath file = .ok s1) : RegistrarInv s1 := by
  rcases setupModChangelogs_cases sv h s dirPath file s1 hr with e | ⟨es, _, _, _, hf⟩
  · exact e ▸ hs
  · have hs1 : RegistrarInv
        { s with gameVersions := s.gameVersions ++ [basename (pathJoin dirPath file)] } := hs
    exact forEach_preserves RegistrarInv _ es
      (fun s x s1 _ hs hr => registrarInv_modChangelog h s _ _ s1 hs hr) _ s1 hs1 hf

theorem registrarInv_latest (sv : Semver) (h : Host) (s s1 : State) (hs : RegistrarInv s)
    (hr : setupLatestChangelogs sv h s = .ok s1) : RegistrarInv s1 := by
  unfold setupLatestChangelogs at hr
  refine forEach_preserves RegistrarInv _ s.modIds ?_ s s1 hs hr
  intro s2 m s3 _ hs2 hr2
  simp only [bind, Except.bind, pure, Except.pure] at hr2
  cases hg : getOrLoadChangelog h s2 m (findLatestVersion sv s.gameVersions) true with
  | error e => simp [hg] at hr2
  | ok r =>
    obtain ⟨t, s4⟩ := r
    simp only [hg, Except.ok.injEq] at hr2
    subst hr2
    exact registrarInv_endpoint _ _ _ (registrarInv_load h s2 m _ true t s4 hs2 hg)

theorem registrarInv_changelogs (sv : Semver) (h : Host) (s : State) (changelogDir : String)
    (s1 : State) (hs : RegistrarInv s)
    (hr : setupChangelogs sv h s changelogDir = .ok s1) : RegistrarInv s1 := by
  unfold setupChangelogs at hr
  simp only [bind, Except.bind] at hr
  cases hd : readdirSync h (pathJoin h.dirname changelogDir) with
  | error e => simp [hd] at hr
  | ok files =>
    simp only [hd] at hr
    cases hf : forEach (fun s file => setupModChangelogs sv h s
        (pathJoin h.dirname changelogDir) file) files s with
    | error e => simp [hf] at hr
    | ok s2 =>
      simp only [hf] at hr
      refine registrarInv_latest sv h s2 s1 ?_ hr
      exact forEach_preserves RegistrarInv _ files
        (fun s x s1 _ hs hr => registrarInv_modChangelogs sv h s _ x s1 hs hr) s s2 hs hf

theorem registrarInv_of_reachable (s : State) (hs : Reachable s) : RegistrarInv s := by
  induction hs with
  | initial => exact ⟨List.nodup_nil, rfl⟩
  | endpoint s c e _ ih => exact registrarInv_endpoint s c e ih
  | load h s m v l t s1 _ hr ih => exact registrarInv_load h s m v l t s1 ih hr
  | modChangelog h s m v s1 _ hr ih => exact registrarInv_modChangelog h s m v s1 ih hr
  | modChangelogs sv h s d f s1 _ hr ih => exact registrarInv_modChangelogs sv h s d f s1 ih hr
  | latestChangelogs sv h s s1 _ hr ih => exact registrarInv_latest sv h s s1 ih hr
  | changelogs sv h s d s1 _ hr ih => exact registrarInv_changelogs sv h s d s1 ih hr

theorem lookup_append_of_not_mem (l : List (String × String)) (k v : String)
    (hk : k ∉ l.map Prod.fst) : (l ++ [(k, v)]).lookup k = some v := by
  induction l with
  | nil => simp [List.lookup]
  | cons x xs ih =>
    obtain ⟨a, b⟩ := x
    simp only [List.map_cons, List.mem_cons, not_or] at hk
    have hne : (k == a) = false := by simpa using hk.1
    simp only [List.cons_append, List.lookup, hne]
    exact ih hk.2

/-- C5: in every reachable state, registering route `r` with body `b1` and then
again with body `b2` gives the state the first call gave; after it `r` is
listed exactly once, it is bound to `b1` when it was not registered before,
and the list of registered routes has no duplicate, before and after. -/
theorem setupChangelogEndpoint_idempotent (s : State) (hs : Reachable s) (b1 b2 r : String) :
    setupChangelogEndpoint (setupChangelogEndpoint s b1 r) b2 r =
        setupChangelogEndpoint s b1 r ∧
      (setupChangelogEndpoint s b1 r).setupEndpoints.count r = 1 ∧
      (r ∉ s.setupEndpoints → boundBody (setupChangelogEndpoint s b1 r) r = some b1) ∧
      s.setupEndpoints.Nodup ∧ (setupChangelogEndpoint s b1 r).setupEndpoints.Nodup := by
  have hinv := registrarInv_of_reachable s hs
  have hinv1 := registrarInv_endpoint s b1 r hinv
  have hmem : r ∈ (setupChangelogEndpoint s b1 r).setupEndpoints := by
    unfold setupChangelogEndpoint
    split_ifs with he
    · exact he
    · simp
  refine ⟨?_, ?_, ?_, hinv.1, hinv1.1⟩
  · exact setupChangelogEndpoint_of_mem _ b2 r hmem
  · exact List.count_eq_one_of_mem hinv1.1 hmem
  · intro hr
    unfold setupChangelogEndpoint boundBody
    rw [if_neg hr]
    exact lookup_append_of_not_mem s.routes r b1 (by rw [hinv.2]; exact hr)

theorem setupChangelogEndpoint_idempotent_witness :
    setupChangelogEndpoint (setupChangelogEndpoint State.initial "Improved Z" "/modA")
        "Fixed bug X" "/modA" = setupChangelogEndpoint State.initial "Improved Z" "/modA" ∧
      (setupChangelogEndpoint State.initial "Improved Z" "/modA").setupEndpoints.count "/modA"
        = 1 ∧
      ("/modA" ∉ State.initial.setupEndpoints →
        boundBody (setupChangelogEndpoint State.initial "Improved Z" "/modA") "/modA" =
          some "Improved Z") ∧
      State.initial.setupEndpoints.Nodup ∧
      (setupChangelogEndpoint State.initial "Improved Z" "/modA").setupEndpoints.Nodup :=
  setupChangelogEndpoint_idempotent State.initial Reachable.initial "Improved Z" "Fixed bug X"
    "/modA"


/-! ## Latest version -/

theorem latest_fold (sv : Semver) (hl : sv.Lawful) (l : List String) :
    ∀ cur, (sv.parse cur).isSome = true → (∀ w ∈ l, (sv.parse w).isSome = true) →
      ∃ v, l.foldl (latestStep sv) (some cur) = some v ∧ (v = cur ∨ v ∈ l) ∧
        (sv.parse v).isSome = true ∧ sv.compare cur v ≤ 0 ∧ ∀ w ∈ l, sv.compare w v ≤ 0 := by
  induction l with
  | nil =>
    intro cur hcur _
    refine ⟨cur, rfl, Or.inl rfl, hcur, ?_, by simp⟩
    rcases hl.total cur cur hcur hcur with h | h <;> exact h
  | cons x xs ih =>
    intro cur hcur hall
    have hx : (sv.parse x).isSome = true := hall x (List.mem_cons_self _ _)
    have hxs : ∀ w ∈ xs, (sv.parse w).isSome = true :=
      fun w hw => hall w (List.mem_cons_of_mem _ hw)
    have hne : cur ≠ "" := by
      intro e
      rw [e, hl.parse_empty] at hcur
      cases hcur
    have ht : truthy (some cur) = true := by simpa [truthy] using hne
    simp only [List.foldl_cons, latestStep, ht, if_true, jsToString]
    by_cases hc : sv.compare x cur > 0
    · simp only [hc, if_true]
      obtain ⟨v, hv, hmem, hval, hxv, hrest⟩ := ih x hx hxs
      have hcx : sv.compare cur x ≤ 0 := by
        rcases hl.total x cur hx hcur with h | h
        · omega
        · exact h
      refine ⟨v, hv, ?_, hval, hl.trans cur x v hcur hx hval hcx hxv, ?_⟩
      · rcases hmem with e | hm
        · exact Or.inr (by simp [e])
        · exact Or.inr (List.mem_cons_of_mem _ hm)
      · intro w hw
        rcases List.mem_cons.1 hw with e | hm
        · exact e ▸ hxv
        · exact hrest w hm
    · simp only [hc, if_false]
      obtain ⟨v, hv, hmem, hval, hcv, hrest⟩ := ih cur hcur hxs
      have hxc : sv.compare x cur ≤ 0 := by omega
      refine ⟨v, hv, ?_, hval, hcv, ?_⟩
      · rcases hmem with e | hm
        · exact Or.inl e
        · exact Or.inr (List.mem_cons_of_mem _ hm)
      · intro w hw
        rcases List.mem_cons.1 hw with e | hm
        · exact e ▸ hl.trans x cur v hx hcur hval hxc hcv
        · exact hrest w hm

theorem findLatestVersion_spec (sv : Semver) (hl : sv.Lawful) (l : List String)
    (hne : l ≠ []) (hall : ∀ w ∈ l, (sv.parse w).isSome = true) :
    ∃ v, findLatestVersion sv l = some v ∧ v ∈ l ∧ ∀ w ∈ l, sv.compare w v ≤ 0 := by
  cases l with
  | nil => exact absurd rfl hne
  | cons x xs =>
    have hx : (sv.parse x).isSome = true := hall x (List.mem_cons_self _ _)
    obtain ⟨v, hv, hmem, _, hxv, hrest⟩ :=
      latest_fold sv hl xs x hx (fun w hw => hall w (List.mem_cons_of_mem _ hw))
    refine ⟨v, ?_, ?_, ?_⟩
    · simpa [findLatestVersion, latestStep, truthy] using hv
    · rcases hmem with e | hm
      · simp [e]
      · exact List.mem_cons_of_mem _ hm
    · intro w hw
      rcases List.mem_cons.1 hw with e | hm
      · exact e ▸ hxv
      · exact hrest w hm

/-! ## The concrete `semver` is lawful -/

theorem compareIdentifiers_neg : ∀ a b : List Nat,
    compareIdentifiers b a = -compareIdentifiers a b
  | [], [] => by simp [compareIdentifiers]
  | [], _ :: _ => by simp [compareIdentifiers]
  | _ :: _, [] => by simp [compareIdentifiers]
  | a :: as, b :: bs => by
    have ih := compareIdentifiers_neg as bs
    simp only [compareIdentifiers]
    split_ifs <;> omega

theorem compareIdentifiers_eq_zero : ∀ a b : List Nat, compareIdentifiers a b = 0 → a = b
  | [], [], _ => rfl
  | [], _ :: _, h => by simp [compareIdentifiers] at h
  | _ :: _, [], h => by simp [compareIdentifiers] at h
  | a :: as, b :: bs, h => by
    simp only [compareIdentifiers] at h
    split_ifs at h with h1 h2
    · omega
    · have e : a = b := by omega
      rw [e, compareIdentifiers_eq_zero as bs h]

theorem compareIdentifiers_self : ∀ a : List Nat, compareIdentifiers a a = 0
  | [] => rfl
  | a :: as => by simp [compareIdentifiers, compareIdentifiers_self as]

theorem compareIdentifiers_trans : ∀ a b c : List Nat,
    compareIdentifiers a b ≤ 0 → compareIdentifiers b c ≤ 0 → compareIdentifiers a c ≤ 0
  | [], _, [], _, _ => by simp [compareIdentifiers]
  | [], _, _ :: _, _, _ => by simp [compareIdentifiers]
  | _ :: _, [], _, h, _ => by simp [compareIdentifiers] at h
  | _ :: _, _ :: _, [], _, h => by simp [compareIdentifiers] at h
  | a :: as, b :: bs, c :: cs, h1, h2 => by
    have ih := compareIdentifiers_trans as bs cs
    simp only [compareIdentifiers] at h1 h2 ⊢
    split_ifs at h1 h2 ⊢ <;> omega

theorem comparePre_eq (a b : List Nat) :
    comparePre a b =
      if a = [] then (if b = [] then 0 else 1)
      else if b = [] then -1 else compareIdentifiers a b := by
  cases a <;> cases b <;> simp [comparePre]

theorem comparePre_neg (a b : List Nat) : comparePre b a = -comparePre a b := by
  rw [comparePre_eq, comparePre_eq]
  have := compareIdentifiers_neg a b
  split_ifs <;> omega

theorem comparePre_eq_zero (a b : List Nat) (h : comparePre a b = 0) : a = b := by
  rw [comparePre_eq] at h
  split_ifs at h with h1 h2 h3
  · rw [h1, h2]
  · omega
  · exact compareIdentifiers_eq_zero a b h

theorem comparePre_trans (a b c : List Nat) (h1 : comparePre a b ≤ 0)
    (h2 : comparePre b c ≤ 0) : comparePre a c ≤ 0 := by
  rw [comparePre_eq] at h1 h2 ⊢
  have := compareIdentifiers_trans a b c
  split_ifs at h1 h2 ⊢ <;> omega

theorem compareParsed_total (a b : List Nat × List Nat) :
    compareParsed a b ≤ 0 ∨ compareParsed b a ≤ 0 := by
  unfold compareParsed
  have h1 := compareIdentifiers_neg a.1 b.1
  have h2 := comparePre_neg a.2 b.2
  split_ifs <;> omega

theorem compareParsed_trans (a b c : List Nat × List Nat) (h1 : compareParsed a b ≤ 0)
    (h2 : compareParsed b c ≤ 0) : compareParsed a c ≤ 0 := by
  unfold compareParsed at h1 h2 ⊢
  by_cases hab : compareIdentifiers a.1 b.1 = 0
  · have e := compareIdentifiers_eq_zero _ _ hab
    rw [if_neg (by simpa using hab)] at h1
    rw [e]
    split_ifs at h2 ⊢ with h3
    · exact h2
    · exact comparePre_trans _ _ _ h1 h2
  · rw [if_pos hab] at h1
    by_cases hbc : compareIdentifiers b.1 c.1 = 0
    · have e := compareIdentifiers_eq_zero _ _ hbc
      rw [← e, if_pos hab]
      exact h1
    · rw [if_pos hbc] at h2
      have h3 := compareIdentifiers_trans _ _ _ h1 h2
      have hac : compareIdentifiers a.1 c.1 ≠ 0 := by
        intro h0
        have e := compareIdentifiers_eq_zero _ _ h0
        rw [← e] at h2
        have := compareIdentifiers_neg a.1 b.1
        omega
      rw [if_pos hac]
      exact h3

theorem plainSemver_parse_isSome (v : String) (h : (plainSemver.parse v).isSome = true) :
    ∃ x, parseVersion v = some x := by
  cases hp : parseVersion v with
  | none => simp [plainSemver, hp] at h
  | some x => exact ⟨x, rfl⟩

theorem plainSemver_lawful : plainSemver.Lawful where
  parse_empty := by decide
  total a b ha hb := by
    obtain ⟨x, hx⟩ := plainSemver_parse_isSome a ha
    obtain ⟨y, hy⟩ := plainSemver_parse_isSome b hb
    simp only [plainSemver, hx, hy]
    exact compareParsed_total x y
  trans a b c ha hb hc := by
    obtain ⟨x, hx⟩ := plainSemver_parse_isSome a ha
    obtain ⟨y, hy⟩ := plainSemver_parse_isSome b hb
    obtain ⟨z, hz⟩ := plainSemver_parse_isSome c hc
    simp only [plainSemver, hx, hy, hz]
    exact compareParsed_trans x y z

/-- C4: `findLatestVersion` returns `undefined` for the empty list; for a
non-empty list of valid versions, with `compare` a total preorder on valid
versions, it returns a member of the list that no member exceeds. -/
theorem findLatestVersion_is_maximum (sv : Semver) (hl : sv.Lawful) :
    findLatestVersion sv [] = none ∧
      ∀ l : List String, l ≠ [] → (∀ w ∈ l, (sv.parse w).isSome = true) →
        ∃ v, findLatestVersion sv l = some v ∧ v ∈ l ∧ ∀ w ∈ l, sv.compare w v ≤ 0 :=
  ⟨rfl, fun l hne hall => findLatestVersion_spec sv hl l hne hall⟩

theorem findLatestVersion_is_maximum_witness :
    findLatestVersion plainSemver [] = none ∧
      ∃ v, findLatestVersion plainSemver ["1.2.3", "1.10.0", "1.3.0"] = some v ∧
        v ∈ ["1.2.3", "1.10.0", "1.3.0"] ∧
        ∀ w ∈ ["1.2.3", "1.10.0", "1.3.0"], plainSemver.compare w v ≤ 0 :=
  ⟨(findLatestVersion_is_maximum plainSemver plainSemver_lawful).1,
    (findLatestVersion_is_maximum plainSemver plainSemver_lawful).2
      ["1.2.3", "1.10.0", "1.3.0"] (by decide) (by decide)⟩


/-! ## Paths and route names -/

theorem pathJoin_data (a b : String) : (pathJoin a b).data = a.data ++ '/' :: b.data := by
  simp [pathJoin, String.data_append]

theorem lastSegment_of_slashFree (cs : List Char) (h : '/' ∉ cs) : lastSegment cs = cs := by
  cases cs with
  | nil => rfl
  | cons c cs =>
    have h1 : '/' ∉ cs := fun e => h (List.mem_cons_of_mem _ e)
    have h2 : c ≠ '/' := fun e => h (by simp [e])
    simp [lastSegment, h1, h2]

theorem lastSegment_append (d f : List Char) (h : '/' ∉ f) :
    lastSegment (d ++ '/' :: f) = f := by
  induction d with
  | nil => simp [lastSegment, h]
  | cons c cs ih => simp [lastSegment, ih]

theorem basename_pathJoin (d f : String) (h : SlashFree f) : basename (pathJoin d f) = f := by
  unfold basename
  rw [pathJoin_data, lastSegment_append _ _ h]

theorem extname_pathJoin (d f : String) (h : SlashFree f) :
    extname (pathJoin d f) = extname f := by
  unfold extname
  rw [pathJoin_data, lastSegment_append _ _ h, lastSegment_of_slashFree _ h]

theorem slashFree_append_txt (m : String) (h : SlashFree m) : SlashFree (m ++ ".txt") := by
  unfold SlashFree at *
  simp only [String.data_append, List.mem_append, not_or]
  exact ⟨h, by decide⟩

theorem slashFree_basenameTxt (f : String) (h : SlashFree f) : SlashFree (basenameTxt f) := by
  unfold basenameTxt
  split_ifs
  · unfold SlashFree at *
    exact fun hm => h (List.mem_of_mem_take hm)
  · exact h

theorem basenameTxt_append_txt (m : String) : basenameTxt (m ++ ".txt") = m := by
  unfold basenameTxt
  have hs : ".txt".data <:+ (m ++ ".txt").data := by
    rw [String.data_append]
    exact List.suffix_append _ _
  rw [if_pos hs]
  have hl : (".txt" : String).data.length = 4 := by decide
  simp [String.data_append, hl]

theorem append_sep_inj (c : Char) : ∀ (a a1 b b1 : List Char), c ∉ a → c ∉ a1 →
    a ++ c :: b = a1 ++ c :: b1 → a = a1 ∧ b = b1
  | [], [], b, b1, _, _, h => by simpa using h
  | [], x :: xs, b, b1, _, h1, h => by
    simp only [List.nil_append, List.cons_append, List.cons.injEq] at h
    exact absurd (by simp [h.1]) h1
  | x :: xs, [], b, b1, h0, _, h => by
    simp only [List.nil_append, List.cons_append, List.cons.injEq] at h
    exact absurd (by simp [h.1]) h0
  | x :: xs, y :: ys, b, b1, h0, h1, h => by
    simp only [List.cons_append, List.cons.injEq] at h
    obtain ⟨e1, e2⟩ := append_sep_inj c xs ys b b1
      (fun hm => h0 (List.mem_cons_of_mem _ hm)) (fun hm => h1 (List.mem_cons_of_mem _ hm)) h.2
    exact ⟨by rw [h.1, e1], e2⟩

theorem string_ext (a b : String) (h : a.data = b.data) : a = b := by
  cases a; cases b; simp at h; rw [h]

theorem versioned_route_inj (m v m1 v1 : String) (hm : SlashFree m) (hm1 : SlashFree m1)
    (h : "/" ++ m ++ "/" ++ v = "/" ++ m1 ++ "/" ++ v1) : m = m1 ∧ v = v1 := by
  have hd := congrArg String.data h
  simp only [String.data_append, List.append_assoc] at hd
  have h2 : m.data ++ '/' :: v.data = m1.data ++ '/' :: v1.data := by
    simpa using hd
  obtain ⟨e1, e2⟩ := append_sep_inj '/' _ _ _ _ hm hm1 h2
  exact ⟨string_ext _ _ e1, string_ext _ _ e2⟩

theorem versioned_route_ne_plain (m v m1 : String) (hm1 : SlashFree m1) :
    "/" ++ m ++ "/" ++ v ≠ "/" ++ m1 := by
  intro h
  have hd := congrArg String.data h
  simp only [String.data_append, List.append_assoc] at hd
  have h2 : m.data ++ '/' :: v.data = m1.data := by simpa using hd
  exact hm1 (by rw [← h2]; simp)

theorem plain_route_inj (m m1 : String) (h : "/" ++ m = "/" ++ m1) : m = m1 := by
  have hd := congrArg String.data h
  simp only [String.data_append] at hd
  exact string_ext _ _ (List.append_cancel_left hd)

theorem buildEndPoint_latest (m : String) : buildEndPoint m (some "latest") = "/" ++ m := by
  simp [buildEndPoint]

theorem buildEndPoint_cases (m v : String) :
    buildEndPoint m (some v) = "/" ++ m ++ "/" ++ v ∨ buildEndPoint m (some v) = "/" ++ m := by
  unfold buildEndPoint
  split_ifs
  · exact Or.inl rfl
  · exact Or.inr rfl

theorem buildEndPoint_version (m v : String) (h1 : v ≠ "") (h2 : v ≠ "latest") :
    buildEndPoint m (some v) = "/" ++ m ++ "/" ++ v := by
  simp [buildEndPoint, truthy, jsToString, h1, h2]

/-- C8, as the code has it: the guard of line 93 compares directory names.  A
directory whose name is already a known version is skipped and the state stays
as it was; a directory whose name is new and parses is added and scanned, even
when a known name parses to the same version. -/
theorem setupModChangelogs_guard_compares_names (sv : Semver) (h : Host) (s : State)
    (dirPath file : String) (es : List String) (hsf : SlashFree file)
    (hd : h.node (pathJoin dirPath file) = some (.dir es)) :
    (file ∈ s.gameVersions → setupModChangelogs sv h s dirPath file = .ok s) ∧
      (file ∉ s.gameVersions → (sv.parse file).isSome = true →
        setupModChangelogs sv h s dirPath file =
          forEach (fun s f => setupModChangelog h s (basenameTxt f) file) es
            { s with gameVersions := s.gameVersions ++ [file] }) := by
  have hb := basename_pathJoin dirPath file hsf
  constructor
  · intro hm
    simp [setupModChangelogs, lstatSync, hd, Node.isDirectory, hb, hm, bind, Except.bind,
      pure, Except.pure]
  · intro hm hp
    simp [setupModChangelogs, lstatSync, hd, Node.isDirectory, hb, hm, hp, readdirSync, bind,
      Except.bind]

theorem setupModChangelogs_guard_compares_names_witness :
    ("v1.2.3" ∈ ["1.2.3"] →
        setupModChangelogs plainSemver aliasHost
          { State.initial with gameVersions := ["1.2.3"] } "/srv/changelogs" "v1.2.3" =
          .ok { State.initial with gameVersions := ["1.2.3"] }) ∧
      ("v1.2.3" ∉ ["1.2.3"] → (plainSemver.parse "v1.2.3").isSome = true →
        setupModChangelogs plainSemver aliasHost
          { State.initial with gameVersions := ["1.2.3"] } "/srv/changelogs" "v1.2.3" =
          forEach (fun s f => setupModChangelog aliasHost s (basenameTxt f) "v1.2.3")
            ["modA.txt"] { State.initial with gameVersions := ["1.2.3"] ++ ["v1.2.3"] }) :=
  setupModChangelogs_guard_compares_names plainSemver aliasHost
    { State.initial with gameVersions := ["1.2.3"] } "/srv/changelogs" "v1.2.3" ["modA.txt"]
    (by decide) rfl


/-! ## The bootstrap invariant -/

theorem mem_of_lookup {β : Type} (l : List (String × β)) (k : String) (t : β)
    (h : l.lookup k = some t) : (k, t) ∈ l := by
  induction l with
  | nil => simp [List.lookup] at h
  | cons x xs ih =>
    obtain ⟨a, b⟩ := x
    simp only [List.lookup] at h
    by_cases hk : k = a
    · subst hk
      simp only [beq_self_eq_true, Option.some.injEq] at h
      simp [h]
    · have hne : (k == a) = false := by simpa using hk
      simp only [hne] at h
      exact List.mem_cons_of_mem _ (ih h)

theorem lookup_of_mem_keys (l : List (String × String)) (k : String)
    (h : k ∈ l.map Prod.fst) : ∃ t, l.lookup k = some t ∧ (k, t) ∈ l := by
  cases hl : l.lookup k with
  | none =>
    rw [List.lookup_eq_none_iff] at hl
    obtain ⟨p, hp, e⟩ := List.mem_map.1 h
    have := hl p hp
    simp [e] at this
  | some t => exact ⟨t, rfl, mem_of_lookup l k t hl⟩

theorem lookup_none_of_not_mem_keys (l : List (String × String)) (k : String)
    (h : k ∉ l.map Prod.fst) : l.lookup k = none := by
  rw [List.lookup_eq_none_iff]
  intro p hp
  have hne : k ≠ p.1 := fun e => h (List.mem_map.2 ⟨p, hp, e.symm⟩)
  simpa using hne

theorem loaded_mono (h : Host) (s s1 : State) (k t : String)
    (hm : s.modIds ⊆ s1.modIds) (hv : s.gameVersions ⊆ s1.gameVersions)
    (hl : Loaded h s k t) : Loaded h s1 k t := by
  obtain ⟨m, h1, v, h2, c, h3⟩ := hl
  exact ⟨m, hm h1, v, hv h2, c, h3⟩

theorem versionedRoute_mono (h : Host) (s s1 : State) (e b : String)
    (hm : s.modIds ⊆ s1.modIds) (hv : s.gameVersions ⊆ s1.gameVersions)
    (hl : VersionedRoute h s e b) : VersionedRoute h s1 e b := by
  obtain ⟨m, h1, v, h2, c, h3, h4, h5⟩ := hl
  exact ⟨m, hm h1, v, hv h2, c, h3, h4, loaded_mono h s s1 _ _ hm hv h5⟩

theorem latestRoute_mono (h : Host) (s s1 : State) (latest : Option String) (e b : String)
    (hm : s.modIds ⊆ s1.modIds) (hv : s.gameVersions ⊆ s1.gameVersions)
    (hl : LatestRoute h s latest e b) : LatestRoute h s1 latest e b := by
  obtain ⟨m, h1, h2, h3⟩ := hl
  exact ⟨m, hm h1, h2, fun v c e1 e2 => loaded_mono h s s1 _ _ hm hv (h3 v c e1 e2)⟩

/-- Growing the mod or version list keeps the invariant when the new names are
themselves in order. -/
theorem inv_grow (sv : Semver) (h : Host) (latest : Option String) (s s1 : State)
    (hi : Inv sv h latest s) (hm : s.modIds ⊆ s1.modIds)
    (hv : s.gameVersions ⊆ s1.gameVersions) (hc : s1.changelogs = s.changelogs)
    (he : s1.setupEndpoints = s.setupEndpoints) (hr : s1.routes = s.routes)
    (hmods : ∀ m ∈ s1.modIds, SlashFree m ∧ extname (m ++ ".txt") = ".txt")
    (hvers : ∀ v ∈ s1.gameVersions, (sv.parse v).isSome = true) : Inv sv h latest s1 where
  registrar := by
    obtain ⟨h1, h2⟩ := hi.registrar
    exact ⟨by rw [he]; exact h1, by rw [he, hr]; exact h2⟩
  mods := hmods
  versions := hvers
  cache k t hk := loaded_mono h s s1 k t hm hv (hi.cache k t (by rw [← hc]; exact hk))
  routes e b hb := by
    rw [hr] at hb
    rcases hi.routes e b hb with h1 | h1
    · exact Or.inl (versionedRoute_mono h s s1 e b hm hv h1)
    · exact Or.inr (latestRoute_mono h s s1 latest e b hm hv h1)

/-- A load for a known mod and known version keeps the invariant, and when the
file is there the returned text is a loaded text of that key. -/
theorem inv_load (sv : Semver) (h : Host) (latest : Option String) (s : State)
    (modId : String) (version : Option String) (l : Bool) (t : String) (s1 : State)
    (hi : Inv sv h latest s) (hm : modId ∈ s.modIds)
    (hv : ∀ v, version = some v → v ∈ s.gameVersions)
    (hr : getOrLoadChangelog h s modId version l = .ok (t, s1)) :
    Inv sv h latest s1 ∧
      ∀ v c, version = some v → h.node (changelogPath h modId v) = some (.file c) →
        Loaded h s1 (changelogKey modId (some v)) t := by
  rcases getOrLoad_cases h s modId version l t s1 hr with
    ⟨e, hl, _⟩ | ⟨p, c, hp, hn, ht, e⟩ | ⟨e, p, hp, hn, _⟩
  · subst e
    refine ⟨hi, ?_⟩
    intro v c ev _
    subst ev
    exact hi.cache _ _ (mem_of_lookup _ _ _ hl)
  · cases version with
    | none => simp [buildChangelogPath] at hp
    | some v =>
      simp only [buildChangelogPath, Except.ok.injEq] at hp
      subst hp
      have hload : Loaded h s (changelogKey modId (some v)) t :=
        ⟨modId, hm, v, hv v rfl, c, rfl, hn, ht⟩
      have hs1 : Loaded h s1 (changelogKey modId (some v)) t := by
        subst e; exact hload
      refine ⟨?_, ?_⟩
      · subst e
        refine ⟨hi.registrar, hi.mods, hi.versions, ?_, hi.routes⟩
        intro k t1 hk
        simp only [List.mem_cons, Prod.mk.injEq] at hk
        rcases hk with ⟨e1, e2⟩ | hk
        · rw [e1, e2]; exact hload
        · exact hi.cache k t1 hk
      · intro v1 c1 ev _
        cases ev
        exact hs1
  · subst e
    refine ⟨hi, ?_⟩
    intro v c ev hc
    subst ev
    simp only [buildChangelogPath, Except.ok.injEq] at hp
    subst hp
    exact absurd hc (hn c)

theorem mem_setupChangelogEndpoint (s : State) (c e : String) :
    e ∈ (setupChangelogEndpoint s c e).setupEndpoints := by
  unfold setupChangelogEndpoint
  split_ifs with he
  · exact he
  · simp

theorem setupChangelogEndpoint_frame (s : State) (c e : String) :
    (setupChangelogEndpoint s c e).modIds = s.modIds ∧
      (setupChangelogEndpoint s c e).gameVersions = s.gameVersions ∧
      (setupChangelogEndpoint s c e).changelogs = s.changelogs ∧
      s.setupEndpoints ⊆ (setupChangelogEndpoint s c e).setupEndpoints := by
  unfold setupChangelogEndpoint
  split_ifs <;> simp

/-- Registering a route whose body is in order keeps the invariant. -/
theorem inv_register (sv : Semver) (h : Host) (latest : Option String) (s : State)
    (c e : String) (hi : Inv sv h latest s)
    (hc : VersionedRoute h s e c ∨ LatestRoute h s latest e c) :
    Inv sv h latest (setupChangelogEndpoint s c e) := by
  have hreg := registrarInv_endpoint s c e hi.registrar
  unfold setupChangelogEndpoint at hreg ⊢
  split_ifs with he
  · exact hi
  · rw [if_neg he] at hreg
    refine ⟨hreg, hi.mods, hi.versions, hi.cache, ?_⟩
    intro e1 b1 hb
    simp only [List.mem_append, List.mem_singleton, Prod.mk.injEq] at hb
    rcases hb with hb | ⟨e2, e3⟩
    · exact hi.routes e1 b1 hb
    · rw [e2, e3]; exact hc

/-- One call of `setupModChangelog` for a name without `/` and a known version
keeps the invariant; it changes neither the version list nor drops a route. -/
theorem inv_modChangelog (sv : Semver) (h : Host) (latest : Option String) (s : State)
    (modId version : String) (s1 : State) (hi : Inv sv h latest s) (hsf : SlashFree modId)
    (hv : version ∈ s.gameVersions) (hr : setupModChangelog h s modId version = .ok s1) :
    Inv sv h latest s1 ∧ s1.gameVersions = s.gameVersions ∧
      s.setupEndpoints ⊆ s1.setupEndpoints := by
  rcases setupModChangelog_cases h s modId version s1 hr with
    e | ⟨p, c, t, s2, hp, hext, hn, hg, e⟩
  · subst e
    exact ⟨hi, rfl, fun _ hx => hx⟩
  · simp only [buildChangelogPath, Except.ok.injEq] at hp
    subst hp
    have hext1 : extname (modId ++ ".txt") = ".txt" :=
      (extname_pathJoin _ _ (slashFree_append_txt modId hsf)).symm.trans hext
    have hi0 : Inv sv h latest
        (if modId ∈ s.modIds then s else { s with modIds := s.modIds ++ [modId] }) := by
      split_ifs with hmem
      · exact hi
      · refine inv_grow sv h latest s _ hi (by simp) (fun _ hx => hx) rfl rfl rfl ?_ hi.versions
        intro m hm
        simp only [List.mem_append, List.mem_singleton] at hm
        rcases hm with hm | hm
        · exact hi.mods m hm
        · rw [hm]; exact ⟨hsf, hext1⟩
    have hm0 : modId ∈
        (if modId ∈ s.modIds then s else { s with modIds := s.modIds ++ [modId] }).modIds := by
      split_ifs with hmem
      · exact hmem
      · simp
    have hgv0 : (if modId ∈ s.modIds then s
        else { s with modIds := s.modIds ++ [modId] }).gameVersions = s.gameVersions := by
      split_ifs <;> rfl
    have hse0 : (if modId ∈ s.modIds then s
        else { s with modIds := s.modIds ++ [modId] }).setupEndpoints = s.setupEndpoints := by
      split_ifs <;> rfl
    obtain ⟨hi2, hl2⟩ := inv_load sv h latest _ modId (some version) false t s2 hi0 hm0
      (fun v ev => by cases ev; rw [hgv0]; exact hv) hg
    obtain ⟨f1, f2, f3, _⟩ := getOrLoad_frame h _ modId (some version) false t s2 hg
    obtain ⟨g1, g2, _, g4⟩ := setupChangelogEndpoint_frame s2 t (buildEndPoint modId (some version))
    subst e
    refine ⟨?_, by rw [g2, f2, hgv0], ?_⟩
    · apply inv_register sv h latest s2 _ _ hi2
      left
      exact ⟨modId, by rw [f1]; exact hm0, version, by rw [f2, hgv0]; exact hv, c, hn, rfl,
        hl2 version c rfl hn⟩
    · intro x hx
      apply g4
      rw [f3, hse0]
      exact hx

/-- A call of `setupModChangelog` for a regular file with a `.txt` path leaves
its route registered. -/
theorem setupModChangelog_registers (h : Host) (s : State) (modId version : String)
    (s1 : State) (c : String) (hr : setupModChangelog h s modId version = .ok s1)
    (hext : extname (changelogPath h modId version) = ".txt")
    (hn : h.node (changelogPath h modId version) = some (.file c)) :
    buildEndPoint modId (some version) ∈ s1.setupEndpoints := by
  unfold setupModChangelog at hr
  simp only [buildChangelogPath, bind, Except.bind, pure, Except.pure, hext, bne_self_eq_false,
    Bool.false_eq_true, if_false, lstatSync, hn, Node.isFile, Bool.not_true] at hr
  cases hg : getOrLoadChangelog h
      (if modId ∈ s.modIds then s else { s with modIds := s.modIds ++ [modId] })
      modId (some version) false with
  | error e => simp [hg] at hr
  | ok r =>
    obtain ⟨t, s2⟩ := r
    simp only [hg, Except.ok.injEq] at hr
    rw [← hr]
    exact mem_setupChangelogEndpoint _ _ _


/-- The scan of one version directory: the invariant is kept, the version list
is unchanged, no route is dropped, and every listed regular file with a `.txt`
path has its route afterwards. -/
theorem scan_files (sv : Semver) (h : Host) (latest : Option String) (version : String) :
    ∀ (es : List String) (s s1 : State), (∀ f ∈ es, SlashFree f) → Inv sv h latest s →
      version ∈ s.gameVersions →
      forEach (fun s f => setupModChangelog h s (basenameTxt f) version) es s = .ok s1 →
      Inv sv h latest s1 ∧ s1.gameVersions = s.gameVersions ∧
        s.setupEndpoints ⊆ s1.setupEndpoints ∧
        ∀ f ∈ es, ∀ c, extname (changelogPath h (basenameTxt f) version) = ".txt" →
          h.node (changelogPath h (basenameTxt f) version) = some (.file c) →
          buildEndPoint (basenameTxt f) (some version) ∈ s1.setupEndpoints := by
  intro es
  induction es with
  | nil =>
    intro s s1 _ hi _ hr
    simp only [forEach, Except.ok.injEq] at hr
    subst hr
    exact ⟨hi, rfl, fun _ hx => hx, by simp⟩
  | cons x xs ih =>
    intro s s1 hsf hi hv hr
    simp only [forEach] at hr
    cases hx : setupModChangelog h s (basenameTxt x) version with
    | error e => simp [hx] at hr
    | ok s2 =>
      simp only [hx] at hr
      obtain ⟨hi2, hg2, he2⟩ := inv_modChangelog sv h latest s (basenameTxt x) version s2 hi
        (slashFree_basenameTxt x (hsf x (List.mem_cons_self _ _))) hv hx
      obtain ⟨hi1, hg1, he1, hall⟩ := ih s2 s1
        (fun f hf => hsf f (List.mem_cons_of_mem _ hf)) hi2 (by rw [hg2]; exact hv) hr
      refine ⟨hi1, by rw [hg1, hg2], fun e he => he1 (he2 he), ?_⟩
      intro f hf c hext hn
      rcases List.mem_cons.1 hf with e | hf
      · subst e
        exact he1 (setupModChangelog_registers h s (basenameTxt f) version s2 c hx hext hn)
      · exact hall f hf c hext hn

/-- One entry of the changelog root: invariant and route coverage are kept. -/
theorem inv_modChangelogs (sv : Semver) (h : Host) (hw : h.WellFormed)
    (latest : Option String) (s : State) (file : String) (s1 : State)
    (hsf : SlashFree file) (hi : Inv sv h latest s) (hs : Scanned h s)
    (hr : setupModChangelogs sv h s (pathJoin h.dirname changelogsDir) file = .ok s1) :
    Inv sv h latest s1 ∧ Scanned h s1 := by
  rcases setupModChangelogs_cases sv h s _ file s1 hr with e | ⟨es, hd, hnew, hp, hf⟩
  · subst e
    exact ⟨hi, hs⟩
  · rw [basename_pathJoin _ _ hsf] at hnew hp hf
    have hi0 : Inv sv h latest { s with gameVersions := s.gameVersions ++ [file] } := by
      refine inv_grow sv h latest s _ hi (fun _ hx => hx) (by simp) rfl rfl rfl hi.mods ?_
      intro v hv
      simp only [List.mem_append, List.mem_singleton] at hv
      rcases hv with hv | hv
      · exact hi.versions v hv
      · rw [hv]; exact hp
    obtain ⟨hi1, hg1, he1, hall⟩ := scan_files sv h latest file es _ s1
      (hw.slashFree _ es hd) hi0 (by simp) hf
    refine ⟨hi1, ?_⟩
    intro v hv m c hm hext hn
    rw [hg1] at hv
    simp only [List.mem_append, List.mem_singleton] at hv
    rcases hv with hv | hv
    · exact he1 (hs v hv m c hm hext hn)
    · subst hv
      have hmem : m ++ ".txt" ∈ es :=
        hw.listed _ es (m ++ ".txt") hd (slashFree_append_txt m hm) (by
          have : h.node (pathJoin (pathJoin (pathJoin h.dirname changelogsDir) v)
              (m ++ ".txt")) = some (.file c) := hn
          rw [this]; rfl)
      have hall1 := hall (m ++ ".txt") hmem c
      rw [basenameTxt_append_txt] at hall1
      apply hall1 _ hn
      exact (extname_pathJoin _ _ (slashFree_append_txt m hm)).trans hext

theorem latestStep_mem (sv : Semver) (l : List String) :
    ∀ acc v, l.foldl (latestStep sv) acc = some v → acc = some v ∨ v ∈ l := by
  induction l with
  | nil => intro acc v hv; exact Or.inl hv
  | cons x xs ih =>
    intro acc v hv
    simp only [List.foldl_cons] at hv
    rcases ih _ v hv with h1 | h1
    · unfold latestStep at h1
      split_ifs at h1
      · right; simp only [Option.some.injEq] at h1; simp [h1]
      · exact Or.inl h1
      · right; simp only [Option.some.injEq] at h1; simp [h1]
    · exact Or.inr (List.mem_cons_of_mem _ h1)

theorem findLatestVersion_mem (sv : Semver) (l : List String) (v : String)
    (hv : findLatestVersion sv l = some v) : v ∈ l := by
  rcases latestStep_mem sv l none v hv with h1 | h1
  · cases h1
  · exact h1

/-- The loop of `setupLatestChangelogs`: the invariant is kept, mod and
version lists are unchanged, no route is dropped, and every mod of the loop has
its unversioned route afterwards. -/
theorem latest_loop (sv : Semver) (h : Host) (latest : Option String) :
    ∀ (ms : List String) (s s1 : State), Inv sv h latest s → (∀ m ∈ ms, m ∈ s.modIds) →
      (∀ v, latest = some v → v ∈ s.gameVersions) →
      forEach (fun s modId => do
          let (changelog, s1) ← getOrLoadChangelog h s modId latest true
          return setupChangelogEndpoint s1 changelog (buildEndPoint modId (some "latest")))
        ms s = .ok s1 →
      Inv sv h latest s1 ∧ s1.modIds = s.modIds ∧ s1.gameVersions = s.gameVersions ∧
        s.setupEndpoints ⊆ s1.setupEndpoints ∧ ∀ m ∈ ms, "/" ++ m ∈ s1.setupEndpoints := by
  intro ms
  induction ms with
  | nil =>
    intro s s1 hi _ _ hr
    simp only [forEach, Except.ok.injEq] at hr
    subst hr
    exact ⟨hi, rfl, rfl, fun _ hx => hx, by simp⟩
  | cons x xs ih =>
    intro s s1 hi hm hv hr
    simp only [forEach, bind, Except.bind, pure, Except.pure] at hr
    cases hg : getOrLoadChangelog h s x latest true with
    | error e => simp [hg] at hr
    | ok r =>
      obtain ⟨t, s2⟩ := r
      simp only [hg] at hr
      have hx : x ∈ s.modIds := hm x (List.mem_cons_self _ _)
      obtain ⟨hi2, hl2⟩ := inv_load sv h latest s x latest true t s2 hi hx hv hg
      obtain ⟨f1, f2, f3, _⟩ := getOrLoad_frame h s x latest true t s2 hg
      obtain ⟨g1, g2, _, g4⟩ :=
        setupChangelogEndpoint_frame s2 t (buildEndPoint x (some "latest"))
      have hi3 : Inv sv h latest (setupChangelogEndpoint s2 t (buildEndPoint x (some "latest"))) := by
        apply inv_register sv h latest s2 _ _ hi2
        right
        exact ⟨x, by rw [f1]; exact hx, buildEndPoint_latest x, fun v c ev hn => hl2 v c ev hn⟩
      obtain ⟨hi1, hm1, hg1, he1, hall⟩ := ih _ s1 hi3
        (fun m hmem => by rw [g1, f1]; exact hm m (List.mem_cons_of_mem _ hmem))
        (fun v ev => by rw [g2, f2]; exact hv v ev) hr
      refine ⟨hi1, by rw [hm1, g1, f1], by rw [hg1, g2, f2], ?_, ?_⟩
      · intro e he
        apply he1
        apply g4
        rw [f3]
        exact he
      · intro m hmem
        rcases List.mem_cons.1 hmem with e | hmem
        · subst e
          apply he1
          rw [← buildEndPoint_latest m]
          exact mem_setupChangelogEndpoint _ _ _
        · exact hall m hmem

/-- After bootstrap on a well-formed file system the invariant holds with the
latest version of the final version list, every changelog file of a known
version has its route, and every known mod has its unversioned route. -/
theorem bootstrap_inv (sv : Semver) (h : Host) (hw : h.WellFormed) (s : State)
    (hr : bootstrap sv h = .ok s) :
    Inv sv h (findLatestVersion sv s.gameVersions) s ∧ Scanned h s ∧
      ∀ m ∈ s.modIds, "/" ++ m ∈ s.setupEndpoints := by
  unfold bootstrap setupChangelogs at hr
  simp only [bind, Except.bind] at hr
  cases hd : readdirSync h (pathJoin h.dirname "changelogs") with
  | error e => simp [hd] at hr
  | ok files =>
    simp only [hd] at hr
    have hroot : h.node (pathJoin h.dirname "changelogs") = some (.dir files) := by
      unfold readdirSync at hd
      cases hn : h.node (pathJoin h.dirname "changelogs") with
      | none => simp [hn] at hd
      | some nd =>
        cases nd with
        | dir es => simp only [hn, Except.ok.injEq] at hd; rw [hd]
        | file c => simp [hn] at hd
        | other => simp [hn] at hd
    cases hf : forEach (fun s file => setupModChangelogs sv h s
        (pathJoin h.dirname "changelogs") file) files State.initial with
    | error e => simp [hf] at hr
    | ok s1 =>
      simp only [hf] at hr
      have h0 : Inv sv h (findLatestVersion sv s1.gameVersions) State.initial ∧
          Scanned h State.initial := by
        refine ⟨⟨⟨List.nodup_nil, rfl⟩, ?_, ?_, ?_, ?_⟩, ?_⟩
        · intro m hm; cases hm
        · intro v hv; cases hv
        · intro k t hk; cases hk
        · intro e b hb; cases hb
        · intro v hv; cases hv
      obtain ⟨hi1, hs1⟩ := forEach_preserves
        (fun s => Inv sv h (findLatestVersion sv s1.gameVersions) s ∧ Scanned h s) _ files
        (fun s x s2 hx hp hstep =>
          inv_modChangelogs sv h hw _ s x s2 (hw.slashFree _ files hroot x hx) hp.1 hp.2 hstep)
        State.initial s1 h0 hf
      unfold setupLatestChangelogs at hr
      obtain ⟨hi, hm, hg, he, hall⟩ := latest_loop sv h (findLatestVersion sv s1.gameVersions)
        s1.modIds s1 s hi1 (fun m hm => hm) (fun v ev => findLatestVersion_mem sv _ v ev) hr
      rw [hg]
      refine ⟨hi, ?_, ?_⟩
      · intro v hv m c hsf hext hn
        rw [hg] at hv
        exact he (hs1 v hv m c hsf hext hn)
      · intro m hmem
        rw [hm] at hmem
        exact hall m hmem


/-! ## Concrete file systems are well formed -/

theorem dropPrefix_append : ∀ a b : List Char, dropPrefix a (a ++ b) = some b
  | [], b => by cases b <;> rfl
  | x :: xs, b => by simp [dropPrefix, dropPrefix_append xs b]

theorem hostOf_wellFormed (d : String) (nodes : List (String × Node))
    (hc : listingsConsistent nodes = true) : (hostOf d nodes).WellFormed := by
  unfold listingsConsistent at hc
  rw [List.all_eq_true] at hc
  constructor
  · intro p es hn n hmem
    have h1 := hc (p, .dir es) (mem_of_lookup nodes p _ hn)
    simp only [Bool.and_eq_true, List.all_eq_true, decide_eq_true_eq] at h1
    exact h1.1 n hmem
  · intro p es n hn hsf hsome
    have h1 := hc (p, .dir es) (mem_of_lookup nodes p _ hn)
    simp only [Bool.and_eq_true, List.all_eq_true] at h1
    cases hk : (hostOf d nodes).node (pathJoin p n) with
    | none => rw [hk] at hsome; cases hsome
    | some nd =>
      have h2 := h1.2 (pathJoin p n, nd) (mem_of_lookup nodes _ _ hk)
      have h3 : dropPrefix (p.data ++ ['/']) (pathJoin p n).data = some n.data := by
        rw [pathJoin_data]
        have : p.data ++ '/' :: n.data = (p.data ++ ['/']) ++ n.data := by simp
        rw [this]
        exact dropPrefix_append _ _
      simp only [h3, Bool.or_eq_true, decide_eq_true_eq] at h2
      rcases h2 with h2 | h2
      · exact absurd h2 hsf
      · exact h2

/-! ## Routes after bootstrap -/

theorem loaded_eq (h : Host) (s : State) (hk : KeysDistinct s) (m v c b : String)
    (hm : m ∈ s.modIds) (hv : v ∈ s.gameVersions)
    (hn : h.node (changelogPath h m v) = some (.file c))
    (hl : Loaded h s (changelogKey m (some v)) b) : b = stripFirstLine c := by
  obtain ⟨m1, hm1, v1, hv1, c1, hkey, hn1, hb⟩ := hl
  obtain ⟨e1, e2⟩ := hk m1 hm1 v1 hv1 m hm v hv hkey
  subst e1 e2
  rw [hn] at hn1
  cases hn1
  exact hb

/-- C7, as the code has it: after bootstrap on a well-formed file system, for
a discovered mod and any version without a regular changelog file, no route
`/modId/version` is registered and no body is bound to that name.  A GET of
that path gets the 404 response when no registered route matches it;
otherwise it gets the body of a registered route with another name that
Express matches to the path, the route of an existing changelog file or the
unversioned route of a discovered mod. -/
theorem unbacked_version_route_not_registered (routeMatches : String → String → Bool)
    (sv : Semver) (h : Host) (hw : h.WellFormed) (s : State)
    (hr : bootstrap sv h = .ok s) (modId version : String) (hm : modId ∈ s.modIds)
    (hmissing : h.node (changelogPath h modId version) = none ∨
      ∃ n, h.node (changelogPath h modId version) = some n ∧ n.isFile = false) :
    "/" ++ modId ++ "/" ++ version ∉ s.setupEndpoints ∧
      boundBody s ("/" ++ modId ++ "/" ++ version) = none ∧
      ((∀ e ∈ s.setupEndpoints, routeMatches e ("/" ++ modId ++ "/" ++ version) = false) →
        handleGet routeMatches s ("/" ++ modId ++ "/" ++ version) =
          { status := 404, body := "Unknown endpoint! (404)" }) ∧
      ((∃ e ∈ s.setupEndpoints, routeMatches e ("/" ++ modId ++ "/" ++ version) = true) →
        ∃ e b, handleGet routeMatches s ("/" ++ modId ++ "/" ++ version) =
            { status := 200, body := b } ∧
          (e, b) ∈ s.routes ∧ routeMatches e ("/" ++ modId ++ "/" ++ version) = true ∧
          e ≠ "/" ++ modId ++ "/" ++ version ∧
          ((∃ m ∈ s.modIds, ∃ v ∈ s.gameVersions, ∃ c,
              h.node (changelogPath h m v) = some (.file c) ∧ e = buildEndPoint m (some v)) ∨
            ∃ m ∈ s.modIds, e = "/" ++ m)) := by
  obtain ⟨hi, _, _⟩ := bootstrap_inv sv h hw s hr
  have hsf := (hi.mods modId hm).1
  have hclass : ∀ e b, (e, b) ∈ s.routes →
      (∃ m ∈ s.modIds, ∃ v ∈ s.gameVersions, ∃ c,
          h.node (changelogPath h m v) = some (.file c) ∧ e = buildEndPoint m (some v)) ∨
        ∃ m ∈ s.modIds, e = "/" ++ m := by
    intro e b hb
    rcases hi.routes e b hb with ⟨m1, hm1, v1, hv1, c, hn, he, _⟩ | ⟨m1, hm1, he, _⟩
    · exact Or.inl ⟨m1, hm1, v1, hv1, c, hn, he⟩
    · exact Or.inr ⟨m1, hm1, he⟩
  have hnot : "/" ++ modId ++ "/" ++ version ∉ s.setupEndpoints := by
    intro hmem
    rw [← hi.registrar.2] at hmem
    obtain ⟨b, _, hb⟩ := lookup_of_mem_keys s.routes _ hmem
    rcases hclass _ b hb with ⟨m1, hm1, v1, _, c, hn, he⟩ | ⟨m1, hm1, he⟩
    · rcases buildEndPoint_cases m1 v1 with e | e
      · rw [e] at he
        obtain ⟨e1, e2⟩ := versioned_route_inj _ _ _ _ hsf (hi.mods m1 hm1).1 he
        subst e1 e2
        rcases hmissing with hnone | ⟨n, hsome, hfile⟩
        · rw [hnone] at hn; cases hn
        · rw [hsome] at hn
          cases hn
          simp [Node.isFile] at hfile
      · rw [e] at he
        exact versioned_route_ne_plain _ _ _ (hi.mods m1 hm1).1 he
    · exact versioned_route_ne_plain _ _ _ (hi.mods m1 hm1).1 he
  refine ⟨hnot, ?_, ?_, ?_⟩
  · unfold boundBody
    exact lookup_none_of_not_mem_keys s.routes _ (by rw [hi.registrar.2]; exact hnot)
  · intro hall
    have hfind : s.routes.find?
        (fun r => routeMatches r.1 ("/" ++ modId ++ "/" ++ version)) = none := by
      rw [List.find?_eq_none]
      intro r hmem
      have h1 : r.1 ∈ s.setupEndpoints := by
        rw [← hi.registrar.2]
        exact List.mem_map.2 ⟨r, hmem, rfl⟩
      simp [hall r.1 h1]
    unfold handleGet
    rw [hfind]
  · rintro ⟨e, he, hmatch⟩
    rw [← hi.registrar.2] at he
    obtain ⟨r0, hr0, e0⟩ := List.mem_map.1 he
    cases hfind : s.routes.find?
        (fun r => routeMatches r.1 ("/" ++ modId ++ "/" ++ version)) with
    | none =>
      rw [List.find?_eq_none] at hfind
      have := hfind r0 hr0
      rw [e0] at this
      exact absurd hmatch this
    | some r =>
      have hmem : r ∈ s.routes := List.mem_of_find?_eq_some hfind
      have hp : routeMatches r.1 ("/" ++ modId ++ "/" ++ version) = true := by
        simpa using List.find?_some hfind
      refine ⟨r.1, r.2, ?_, hmem, hp, ?_, hclass r.1 r.2 hmem⟩
      · unfold handleGet
        rw [hfind]
      · intro e1
        apply hnot
        rw [← hi.registrar.2, ← e1]
        exact List.mem_map.2 ⟨r, hmem, rfl⟩

theorem scenarioHost_wellFormed : scenarioHost.WellFormed :=
  hostOf_wellFormed _ _ (by decide)

theorem unbacked_version_route_not_registered_witness :
    ∃ s, bootstrap plainSemver scenarioHost = .ok s ∧
      "/" ++ "modA" ++ "/" ++ "9.9.9" ∉ s.setupEndpoints ∧
      boundBody s ("/" ++ "modA" ++ "/" ++ "9.9.9") = none ∧
      handleGet expressMatch s ("/" ++ "modA" ++ "/" ++ "9.9.9") =
        { status := 404, body := "Unknown endpoint! (404)" } :=
  ⟨_, rfl,
    (unbacked_version_route_not_registered expressMatch plainSemver scenarioHost
      scenarioHost_wellFormed _ rfl "modA" "9.9.9" (by decide) (Or.inl rfl)).1,
    (unbacked_version_route_not_registered expressMatch plainSemver scenarioHost
      scenarioHost_wellFormed _ rfl "modA" "9.9.9" (by decide) (Or.inl rfl)).2.1,
    (unbacked_version_route_not_registered expressMatch plainSemver scenarioHost
      scenarioHost_wellFormed _ rfl "modA" "9.9.9" (by decide) (Or.inl rfl)).2.2.1
      (by decide)⟩

/-- C2, as the code has it: after bootstrap on a well-formed file system, for
a discovered mod whose changelog file exists at the latest version, and with no
two discovered pairs sharing a cache key, `/modId` and
`/modId/latestVersion` are both bound to that file's text without its first
line; the latest version is a known version that no known version exceeds. -/
theorem latest_alias_serves_latest_file (sv : Semver) (hl : sv.Lawful)
    (hlatest : sv.parse "latest" = none) (h : Host) (hw : h.WellFormed) (s : State)
    (hr : bootstrap sv h = .ok s) (hk : KeysDistinct s) (modId latestVersion c : String)
    (hm : modId ∈ s.modIds) (hL : findLatestVersion sv s.gameVersions = some latestVersion)
    (hn : h.node (changelogPath h modId latestVersion) = some (.file c)) :
    boundBody s ("/" ++ modId) = some (stripFirstLine c) ∧
      boundBody s ("/" ++ modId ++ "/" ++ latestVersion) = some (stripFirstLine c) ∧
      latestVersion ∈ s.gameVersions ∧ ∀ w ∈ s.gameVersions, sv.compare w latestVersion ≤ 0 := by
  obtain ⟨hi, hsc, hall⟩ := bootstrap_inv sv h hw s hr
  have hLmem := findLatestVersion_mem sv _ _ hL
  obtain ⟨hsf, hext⟩ := hi.mods modId hm
  have hvalid : ∀ v ∈ s.gameVersions, ∀ m, buildEndPoint m (some v) = "/" ++ m ++ "/" ++ v := by
    intro v hv m
    have hp := hi.versions v hv
    apply buildEndPoint_version
    · intro e; rw [e, hl.parse_empty] at hp; cases hp
    · intro e; rw [e, hlatest] at hp; cases hp
  refine ⟨?_, ?_, hLmem, ?_⟩
  · have hmem := hall modId hm
    rw [← hi.registrar.2] at hmem
    obtain ⟨b, hlook, hb⟩ := lookup_of_mem_keys s.routes _ hmem
    unfold boundBody
    rw [hlook]
    rcases hi.routes _ b hb with ⟨m1, hm1, v1, hv1, c1, _, he, _⟩ | ⟨m1, hm1, he, hload⟩
    · rw [hvalid v1 hv1] at he
      exact absurd he.symm (versioned_route_ne_plain _ _ _ hsf)
    · have e := plain_route_inj _ _ he
      subst e
      rw [loaded_eq h s hk modId latestVersion c b hm hLmem hn (hload _ c hL hn)]
  · have hmem := hsc latestVersion hLmem modId c hsf hext hn
    rw [hvalid latestVersion hLmem, ← hi.registrar.2] at hmem
    obtain ⟨b, hlook, hb⟩ := lookup_of_mem_keys s.routes _ hmem
    unfold boundBody
    rw [hlook]
    rcases hi.routes _ b hb with ⟨m1, hm1, v1, hv1, c1, _, he, hload⟩ | ⟨m1, hm1, he, _⟩
    · rw [hvalid v1 hv1] at he
      obtain ⟨e1, e2⟩ := versioned_route_inj _ _ _ _ hsf (hi.mods m1 hm1).1 he
      subst e1 e2
      rw [loaded_eq h s hk modId latestVersion c b hm hLmem hn hload]
    · exact absurd he (versioned_route_ne_plain _ _ _ (hi.mods m1 hm1).1)
  · obtain ⟨v, hv, _, hmax⟩ := findLatestVersion_spec sv hl s.gameVersions
      (List.ne_nil_of_mem hLmem) hi.versions
    rw [hL] at hv
    cases hv
    exact hmax

theorem latest_alias_serves_latest_file_witness :
    ∃ s, bootstrap plainSemver scenarioHost = .ok s ∧
      boundBody s ("/" ++ "modA") = some (stripFirstLine "sha456\nImproved Z") ∧
      boundBody s ("/" ++ "modA" ++ "/" ++ "1.3.0") = some (stripFirstLine "sha456\nImproved Z") ∧
      "1.3.0" ∈ s.gameVersions ∧ ∀ w ∈ s.gameVersions, plainSemver.compare w "1.3.0" ≤ 0 :=
  ⟨_, rfl, latest_alias_serves_latest_file plainSemver plainSemver_lawful (by decide)
    scenarioHost scenarioHost_wellFormed _ rfl (by unfold KeysDistinct; decide)
    "modA" "1.3.0" "sha456\nImproved Z" (by decide) rfl rfl⟩


/-! ## The code at concrete inputs -/

/-- C9 fails on the code: a changelog of one line is cached as the empty
string, which the truthiness test of line 42 takes for a miss; after the file
was rewritten the next call reads it again and returns the new text. -/
theorem getOrLoadChangelog_reloads_empty_entry :
    ∃ s1, getOrLoadChangelog oneLineHost State.initial "modA" (some "1.2.3") false =
        .ok ("", s1) ∧
      s1.changelogs.lookup (changelogKey "modA" (some "1.2.3")) = some "" ∧
      ∃ s2, getOrLoadChangelog rewrittenHost s1 "modA" (some "1.2.3") false =
        .ok ("New text", s2) :=
  ⟨_, rfl, rfl, _, rfl⟩

/-- C10 fails on the code: mod `a-1.0.0` at version `2.0.0` and mod `a` at
version `1.0.0-2.0.0` share the cache key `a-1.0.0-2.0.0`, both versions are
valid, and after bootstrap `/a-1.0.0/2.0.0` serves the changelog of the other
mod although its own file holds a different text. -/
theorem changelogKey_clash_serves_other_mod :
    changelogKey "a-1.0.0" (some "2.0.0") = changelogKey "a" (some "1.0.0-2.0.0") ∧
      (plainSemver.parse "1.0.0-2.0.0").isSome = true ∧
      (plainSemver.parse "2.0.0").isSome = true ∧
      clashHost.node "/srv/changelogs/2.0.0/a-1.0.0.txt" =
        some (.file "sha2\nChanges of a-1.0.0") ∧
      ∃ s, bootstrap plainSemver clashHost = .ok s ∧
        handleGet expressMatch s "/a-1.0.0/2.0.0" =
          { status := 200, body := "Changes of a" } :=
  ⟨rfl, rfl, rfl, rfl, _, rfl, rfl⟩

/-- C6 fails on the code: a `readme.md`, or a sub-directory, in a version
directory makes the scan throw `ENOENT` for the name with `.txt` appended. -/
theorem setupChangelogs_throws_on_non_txt_entry :
    bootstrap plainSemver readmeHost =
        .error (.enoent "/srv/changelogs/1.2.3/readme.md.txt") ∧
      bootstrap plainSemver subdirHost = .error (.enoent "/srv/changelogs/1.2.3/old.txt") :=
  ⟨rfl, rfl⟩

/-- C7 as stated fails: after bootstrap of the scenario tree `modA` is
discovered, no file backs version 9.9.9, and `GET /modA/9.9.9` is answered by
the 404 fallback. -/
theorem missing_version_route_is_404 :
    ∃ s, bootstrap plainSemver scenarioHost = .ok s ∧ "modA" ∈ s.modIds ∧
      scenarioHost.node "/srv/changelogs/9.9.9/modA.txt" = none ∧
      handleGet expressMatch s "/modA/9.9.9" =
        { status := 404, body := "Unknown endpoint! (404)" } :=
  ⟨_, rfl, by decide, rfl, rfl⟩

/-- Express ignores letter case: on the tree with `1.2.3` and `v1.2.3` the
path `/modA/V1.2.3` has no changelog file and no route of that name, and the
route `/modA/v1.2.3` answers it. -/
theorem case_variant_path_is_served :
    ∃ s, bootstrap plainSemver aliasHost = .ok s ∧
      aliasHost.node (changelogPath aliasHost "modA" "V1.2.3") = none ∧
      boundBody s "/modA/V1.2.3" = none ∧
      handleGet expressMatch s "/modA/V1.2.3" = { status := 200, body := "Second" } :=
  ⟨_, rfl, rfl, rfl, rfl⟩

/-- C2 as stated fails: `modA` is discovered at 1.2.3 only, the latest version
is 1.3.0, `/modA` is bound to the placeholder and `/modA/1.3.0` is not bound. -/
theorem latest_alias_differs_without_file :
    ∃ s, bootstrap plainSemver staleHost = .ok s ∧ "modA" ∈ s.modIds ∧
      findLatestVersion plainSemver s.gameVersions = some "1.3.0" ∧
      boundBody s "/modA" = some "Missing changelog file for mod/version: modA-latest" ∧
      boundBody s "/modA/1.3.0" = none :=
  ⟨_, rfl, by decide, rfl, rfl, rfl⟩

/-- C8 as stated fails: `1.2.3` and `v1.2.3` parse to the same version, yet
both names enter the known-version list and both directories get routes. -/
theorem alias_directories_both_scanned :
    plainSemver.parse "1.2.3" = plainSemver.parse "v1.2.3" ∧
      ∃ s, bootstrap plainSemver aliasHost = .ok s ∧
        s.gameVersions = ["1.2.3", "v1.2.3"] ∧
        boundBody s "/modA/1.2.3" = some "First" ∧
        boundBody s "/modA/v1.2.3" = some "Second" :=
  ⟨rfl, _, rfl, rfl, rfl, rfl⟩

end Changelogs
